import Mathlib

/-!
# Verification of the Vimani run controller and plan validator

Shallow embedding of `app/orchestrator/validation.py`, `app/orchestrator/service.py`
(`OrchestratorService.start_run`), `app/orchestrator/models.py` and
`app/executor/impl_mock.py` (`MockExecutor`), together with proofs about the
embedded definitions.

Modelling conventions:
* Collaborators (planner, the two wait-channels, executor, archivist) are modelled
  as oracle functions consumed through monotonically increasing indices; this is the
  pure counterpart of the FIFO queues and of repeated calls to `planner.next`.
* The `jsonschema.validate` calls in `validation.py` check the plan (resp. a step's
  params) against external JSON schema documents that are not part of the source
  tree; they are modelled as oracle functions returning `none` (no violation) or
  `some (message, path)`.
* Python `set`s used by the code (`visiting`, `visited`, `skipped_steps`) are
  modelled as duplicate-free lists.  `visiting` is maintained by the source with a
  strict stack discipline (`add` on entry, `remove` on exit), so the list model
  pushes/pops its head.
* Unbounded `while` loops (`while True` retry loop, decision-wait loop, replan loop,
  the correction `while` whose `form` branch does not increase the counter) take a
  fuel argument and return `none` when the fuel runs out, which models divergence /
  blocking forever; bounded `for turn in range(10)` loops are structural.
* Timestamps (`ts`, wall-clock) are dropped: they never influence control flow.
-/

namespace Vimani

/-! ## Data model (`app/orchestrator/models.py`) -/

inductive RunStatus where
  | SUCCESS | PARTIAL | FAILED | CANCELLED
deriving DecidableEq, Repr

inductive ErrorSource where
  | PLANNER | EXECUTOR | ORCHESTRATOR
deriving DecidableEq, Repr

inductive ErrorSeverity where
  | STEP | RUN
deriving DecidableEq, Repr

structure ErrorEnvelope where
  code : String
  message : String
  source : ErrorSource
  step_id : Option String := none
  retryable : Bool := false
  severity : ErrorSeverity := ErrorSeverity.STEP
deriving DecidableEq, Repr

inductive ExecutionEventType where
  | RUN_CREATED | DEBUG | PLANNER_MESSAGE | PLAN_INVALID | PLAN_ACCEPTED
  | EXEC_EVENT | NEED_STEP_DECISION | RUN_DONE | RUN_ERROR
  | STEP_STARTED | STEP_LOG | STEP_DONE | STEP_FAILED | RUN_SUMMARY
deriving DecidableEq, Repr

/-- The `output` dict carried by an `ExecEvent`: either the mock executor's
`{"ok": True, "step_id": ...}` or the run summary payload. -/
inductive EventOutput where
  | stepOk (step_id : String)
  | summary (status : RunStatus) (skipped_steps : List String) (total_steps : Nat)
deriving DecidableEq, Repr

structure ExecEvent where
  type : ExecutionEventType
  step_id : Option String := none
  message : Option String := none
  output : Option EventOutput := none
  error : Option ErrorEnvelope := none
deriving DecidableEq, Repr

structure PlanStep where
  step_id : String
  op_id : String
  params : List (String × String) := []
  depends_on : List String := []
deriving DecidableEq, Repr

structure Plan where
  plan_id : String
  tool_key : String
  objective : String
  steps : List PlanStep := []
deriving DecidableEq, Repr

structure ValidationError where
  code : String
  message : String
  path : Option String := none
  step_id : Option String := none
  op_id : Option String := none
deriving DecidableEq, Repr

structure RunResult where
  run_id : String
  status : RunStatus
  tool_key : String
  intent : String
  registry_version : Option String := none
  plan : Option Plan := none
  execution_trace : List ExecEvent := []
  errors : List ErrorEnvelope := []
  pre_state : List (String × String) := []
  post_state : List (String × String) := []
  archive_ref : Option String := none
deriving DecidableEq, Repr

/-- Python truthiness of an optional string field (`None` and `""` are falsy);
used by `ErrorSeverity.STEP if err.step_id else ErrorSeverity.RUN`. -/
def pyTruthy : Option String → Bool
  | none => false
  | some s => s ≠ ""

/-! ## Registry and the schema oracles (`validation.py` externals) -/

/-- One entry of `registry["operations"]`; its `input_schema` lives behind
`ValOracle.paramSchema`, keyed by `op_id`. -/
structure RegistryOp where
  op_id : String
deriving DecidableEq, Repr

structure Registry where
  version : Option String := none
  operations : List RegistryOp := []
deriving DecidableEq, Repr

/-- Oracles for the two `jsonschema.validate` calls: `none` = no violation,
`some (message, path)` = the `jsonschema.ValidationError` raised. -/
structure ValOracle where
  planSchema : Plan → Option (String × String)
  paramSchema : String → List (String × String) → Option (String × String)

/-! ## Dependency graph (`validation.py` lines 62-95) -/

/-- Python dict keys: first-occurrence order, duplicates collapsed. -/
def pyKeysAux (seen : List String) : List (String × List String) → List String
  | [] => []
  | (k, _) :: t => if k ∈ seen then pyKeysAux seen t else k :: pyKeysAux (k :: seen) t

def pyKeys (adj : List (String × List String)) : List String :=
  pyKeysAux [] adj

/-- Python dict lookup: the last binding for a key wins. -/
def lookupLast (adj : List (String × List String)) (k : String) : Option (List String) :=
  (adj.reverse.find? (fun p => p.1 == k)).map (·.2)

/-- `adjacency.get(node, [])`. -/
def adjGet (adj : List (String × List String)) (n : String) : List String :=
  (lookupLast adj n).getD []

/-- All strings that can ever appear as a `dfs` argument: keys and dependency
targets.  Used to bound the recursion depth. -/
def nodesU (adj : List (String × List String)) : List String :=
  adj.map (·.1) ++ (adj.map (·.2)).flatten

/-- One `depends_on` edge of the graph: `a` depends on `b`
(the direction the Python `dfs` walks). -/
def Edge (adj : List (String × List String)) (a b : String) : Prop :=
  b ∈ adjGet adj a

instance (adj : List (String × List String)) (a b : String) : Decidable (Edge adj a b) := by
  unfold Edge; infer_instance

/-- Non-empty chains of `depends_on` edges. -/
inductive ReachPlus (adj : List (String × List String)) : String → String → Prop where
  | single {a b : String} : Edge adj a b → ReachPlus adj a b
  | head {a b c : String} : Edge adj a b → ReachPlus adj b c → ReachPlus adj a c

def HasCycle (adj : List (String × List String)) : Prop :=
  ∃ n, ReachPlus adj n n

-- The recursive `dfs` of `validate_plan` (lines 77-90), with `visiting`/`visited`
-- as stack-disciplined lists.  `dfsL` is the `for nxt in adjacency.get(node, [])`
-- loop threading the shared mutable sets.  The fuel argument is a termination
-- artifact (it decreases on every call; exhaustion returns `false` and is shown
-- unreachable for the fuel used by `cycleScan`): the Python recursion needs no
-- fuel because the `visiting`/`visited` coloring bounds it.
mutual

def dfs (adj : List (String × List String)) (f : Nat) (n : String)
    (vg vd : List String) : (Bool × List String × List String) :=
  match f with
  | 0 => (false, vg, vd)
  | f + 1 =>
    if n ∈ vg then (true, vg, vd)
    else if n ∈ vd then (false, vg, vd)
    else
      match dfsL adj f (adjGet adj n) (n :: vg) vd with
      | (true, vg2, vd2) => (true, vg2, vd2)
      | (false, vg2, vd2) => (false, vg2.erase n, n :: vd2)

def dfsL (adj : List (String × List String)) (f : Nat) (cs : List String)
    (vg vd : List String) : (Bool × List String × List String) :=
  match f with
  | 0 => (false, vg, vd)
  | f + 1 =>
    match cs with
    | [] => (false, vg, vd)
    | c :: cs =>
      match dfs adj f c vg vd with
      | (true, vg2, vd2) => (true, vg2, vd2)
      | (false, vg2, vd2) => dfsL adj f cs vg2 vd2

end

/-- Total length of all dependency lists: bounds the out-degree of any node. -/
def degTotal (adj : List (String × List String)) : Nat :=
  ((adj.map (·.2)).flatten).length

/-- Fuel sufficient for a full traversal (proved below). -/
def scanFuel (adj : List (String × List String)) : Nat :=
  ((nodesU adj).length + 1) * (degTotal adj + 1)

/-- The outer `for node in list(adjacency.keys())` loop (lines 92-95): the
`visiting`/`visited` sets are shared across iterations, and the loop stops at
the first node whose traversal finds a cycle. -/
def scanNodes (adj : List (String × List String)) (fuel : Nat) :
    List String → List String → List String → Option String
  | [], _, _ => none
  | k :: ks, vg, vd =>
    match dfs adj fuel k vg vd with
    | (true, _, _) => some k
    | (false, vg2, vd2) => scanNodes adj fuel ks vg2 vd2

def cycleScan (adj : List (String × List String)) : Option String :=
  scanNodes adj (scanFuel adj) (pyKeys adj) [] []

/-! ## `validate_plan` (`validation.py` lines 26-97) -/

def MAX_STEPS : Nat := 5

def mkError (code message : String) (step_id path op_id : Option String) : ValidationError :=
  { code := code, message := message, step_id := step_id, path := path, op_id := op_id }

def cycleMsg : String := "Cycle detected in dependencies"

def planAdj (steps : List PlanStep) : List (String × List String) :=
  steps.map (fun s => (s.step_id, s.depends_on))

def validate_plan (O : ValOracle) (plan : Plan) (registry : Registry) : List ValidationError :=
  let steps := plan.steps
  -- 1. JSON schema validation (oracle)
  let schemaErrs := match O.planSchema plan with
    | some (m, p) => [mkError "SCHEMA_INVALID" m none (some p) none]
    | none => []
  -- 2. Limits
  let limitErrs :=
    if steps.length > MAX_STEPS then
      [mkError "LIMIT_EXCEEDED"
        ("Plan has " ++ toString steps.length ++ " steps; max is " ++ toString MAX_STEPS)
        none (some "steps") none]
    else []
  -- 3. Registry lookup and per-op param schema (oracle); unknown op short-circuits
  -- the params check for that step (`continue`).
  let stepErrs := steps.flatMap (fun s =>
    if ¬ registry.operations.any (fun op => op.op_id = s.op_id) then
      [mkError "UNKNOWN_OPERATION"
        ("Operation " ++ s.op_id ++ " not found in registry")
        (some s.step_id) none (some s.op_id)]
    else
      match O.paramSchema s.op_id s.params with
      | some (m, p) => [mkError "INVALID_PARAMS" m (some s.step_id) (some p) (some s.op_id)]
      | none => [])
  -- 4. Dependency validation: dangling and self-dependencies
  let stepIds := steps.map (·.step_id)
  let depErrs := steps.flatMap (fun s =>
    s.depends_on.flatMap (fun dep =>
      (if dep ∉ stepIds then
        [mkError "INVALID_DEPENDENCY" ("Dependency " ++ dep ++ " not found")
          (some s.step_id) (some "depends_on") none]
      else []) ++
      (if dep = s.step_id then
        [mkError "INVALID_DEPENDENCY" "Step cannot depend on itself"
          (some s.step_id) (some "depends_on") none]
      else [])))
  -- cycle detection using DFS
  let cycleErrs := match cycleScan (planAdj steps) with
    | some n => [mkError "INVALID_DEPENDENCY" cycleMsg (some n) (some "depends_on") none]
    | none => []
  schemaErrs ++ limitErrs ++ stepErrs ++ depErrs ++ cycleErrs

/-- The cycle-rule errors among a validator output (`INVALID_DEPENDENCY` with the
fixed cycle message, which no other rule and no oracle error can produce). -/
def cycleErrors (errs : List ValidationError) : List ValidationError :=
  errs.filter (fun e => e.code = "INVALID_DEPENDENCY" ∧ e.message = cycleMsg)

/-! ## Collaborator oracles (`service.py` / `ws.py` externals)

`planner.next` is a stateful collaborator called repeatedly: it is modelled as a
stream indexed by its call counter.  `wait_for_user_message` and
`wait_for_step_decision` read FIFO queues (`asyncio.Queue` in `ws.py`, whose
`wait_for_step_decision` pops the next item regardless of run/step id): each is a
stream with a consumption index held in the run state.  `send_event` has no
effect on the run state and is not modelled. -/

inductive PlannerOutput where
  | form (text : String)
  | plan (p : Plan)
  | other (tag : String)
deriving DecidableEq

/-- An item of the step-decision queue: either a dict (with possibly missing
keys) or the non-dict fallback of `service.py` lines 291-294. -/
inductive DecisionResponse where
  | dict (run_id step_id decision : Option String)
  | raw (decision : String)
deriving DecidableEq

/-- The record handed to the archivist (`service.py` lines 412-423). -/
structure ArchivePayload where
  run_id : String
  tool_key : String
  intent : String
  registry_version : Option String
  conversation : List String
  plan : Option Plan
  exec_trace : List ExecEvent
  pre_state : List (String × String)
  post_state : List (String × String)
  status : RunStatus
deriving DecidableEq, Repr

structure Collab where
  planner : Nat → PlannerOutput
  userMsg : Nat → String
  decision : Nat → DecisionResponse
  /-- `executor.execute_plan(tool_key, plan, user_context, fail_on_step_id)` as the
  finite list of events its async generator yields. -/
  execPlan : Plan → Option (Option String) → Option String → List ExecEvent
  /-- `executor.fetch_state`; call 0 is the pre-run snapshot, call 1 the post-run one. -/
  fetchState : Nat → List (String × String)
  /-- `archivist.store_run`: `.error` models a raised exception (swallowed by the
  controller), `.ok r` a returned record with `archive_ref = r`. -/
  storeRun : ArchivePayload → Except String (Option String)

/-! ## Run state -/

/-- The mutable locals of `start_run` that survive across loop iterations.
`user_context` is modelled as `Option (Option String)`: `none` for a falsy
context (`None` or `{}`), `some f` for a truthy dict whose
`"fail_on_step_id"` entry is `f`. -/
structure St where
  planner_idx : Nat := 0
  user_idx : Nat := 0
  dec_idx : Nat := 0
  conversation : List String := []
  plan_dict : Option Plan := none
  skipped : List String := []
  exec_trace : List ExecEvent := []
  aborted : Bool := false
  need_replan : Bool := false
  fail_on_step_id : Option String := none
deriving DecidableEq, Repr

/-- Static data of one `start_run` invocation (arguments, collaborators, loop fuel). -/
structure Cfg where
  C : Collab
  /-- `run_id = str(uuid.uuid4())`: an arbitrary fresh identifier, taken as input. -/
  runId : String
  toolKey : String
  intent : String
  userContext : Option (Option String)
  registry : Registry
  O : ValOracle
  aFuel : Nat
  dFuel : Nat
  cFuel : Nat
  oFuel : Nat

/-! ## The step walk (`service.py` lines 222-387) -/

/-- Add to the skip-set (a Python `set` modelled as a duplicate-free list). -/
def addSkip (x : String) (l : List String) : List String :=
  if x ∈ l then l else l ++ [x]

/-- `SKIP_DEPENDENTS` handler (lines 307-311): add the failed step and every step
of the plan that lists it as a direct dependency. -/
def addDependents (plan : Plan) (sid : String) (l : List String) : List String :=
  plan.steps.foldl (fun acc s => if sid ∈ s.depends_on then addSkip s.step_id acc else acc)
    (addSkip sid l)

/-- The `async for event in executor.execute_plan(...)` loop (lines 260-275):
skip `RUN_SUMMARY` events, append everything else to the trace, stop at a
`STEP_FAILED` for the current step, remember a `STEP_DONE` for it.
Returns (trace suffix, failure event if any, step-done flag). -/
def consumeEvents (sid : String) : List ExecEvent → (List ExecEvent × Option ExecEvent × Bool)
  | [] => ([], none, false)
  | e :: rest =>
    if e.type = ExecutionEventType.RUN_SUMMARY then consumeEvents sid rest
    else if e.type = ExecutionEventType.STEP_FAILED ∧ e.step_id = some sid then
      ([e], some e, false)
    else
      let r := consumeEvents sid rest
      (e :: r.1, r.2.1, decide (e.type = ExecutionEventType.STEP_DONE ∧ e.step_id = some sid) || r.2.2)

/-- The decision-wait loop (lines 285-294): pop items off the decision queue until
one is a dict matching the current run and failed step, or a non-dict; returns
the decision and the next queue index. -/
def waitDecision (C : Collab) (runId : String) (fsid : Option String) :
    Nat → Nat → Option (Option String × Nat)
  | 0, _ => none
  | f + 1, i =>
    match C.decision i with
    | DecisionResponse.dict rid sid d =>
      if rid = some runId ∧ sid = fsid then some (d, i + 1)
      else waitDecision C runId fsid f (i + 1)
    | DecisionResponse.raw d => some (some d, i + 1)

/-- The failure message appended to the conversation by the `REPLAN` branch
(lines 316-321). -/
def replanMsg (sid : String) (fe : ExecEvent) : String :=
  "Step " ++ sid ++ " failed: " ++
    (match fe.error with | some e => e.message | none => "Unknown error") ++
    ". Please provide a new plan."

/-- The single-step sub-plan built at lines 249-254. -/
def singleStepPlan (toolKey : String) (plan : Plan) (step : PlanStep) : Plan :=
  { plan_id := plan.plan_id ++ "_step_" ++ step.step_id
    tool_key := toolKey
    objective := "Execute step " ++ step.step_id
    steps := [step] }

/-- The per-step attempt loop (`while True`, lines 243-325): execute the step as a
single-step sub-plan, and on a `STEP_FAILED` wait for a decision and apply it.
Only `RETRY_STEP` loops; every other branch leaves the loop.  Returns the updated
state and the `step_completed` flag.  In the skip branches the code uses
`failure_event.step_id`, which equals `current_step.step_id` by the break
condition of the event-consumption loop. -/
def attemptLoop (cfg : Cfg) (plan : Plan) (step : PlanStep) :
    Nat → Bool → St → Option (St × Bool)
  | 0, _, _ => none
  | f + 1, retry, st =>
    -- lines 244-247: on a retry, pop `fail_on_step_id` from a copy of the context
    let ctxUse := if retry ∧ cfg.userContext.isSome then some none else cfg.userContext
    -- line 256
    let failTarget := if retry then none
      else if st.fail_on_step_id = some step.step_id then some step.step_id else none
    let r := consumeEvents step.step_id
      (cfg.C.execPlan (singleStepPlan cfg.toolKey plan step) ctxUse failTarget)
    let st := { st with exec_trace := st.exec_trace ++ r.1 }
    match r.2.1 with
    | none => some (st, r.2.2)        -- line 277-279
    | some fe =>
      match waitDecision cfg.C cfg.runId fe.step_id cfg.dFuel st.dec_idx with
      | none => none
      | some (d, j) =>
        let st := { st with dec_idx := j }
        if d = some "ABORT_RUN" then some ({ st with aborted := true }, false)
        else if d = some "RETRY_STEP" then attemptLoop cfg plan step f true st
        else if d = some "SKIP_STEP" then
          some ({ st with
            skipped := addSkip step.step_id st.skipped
            fail_on_step_id :=
              if st.fail_on_step_id = some step.step_id then none else st.fail_on_step_id },
            false)
        else if d = some "SKIP_DEPENDENTS" then
          some ({ st with
            skipped := addDependents plan step.step_id st.skipped
            fail_on_step_id :=
              if st.fail_on_step_id = some step.step_id then none else st.fail_on_step_id },
            false)
        else if d = some "REPLAN" then
          some ({ st with
            conversation := st.conversation ++ [replanMsg step.step_id fe]
            plan_dict := none
            need_replan := true }, false)
        else some (st, false)          -- unrecognized decision: line 325

/-- The forward walk over the plan steps (`while step_index < len(...)`,
lines 226-339).  The index always advances except on abort/replan, so the loop is
structural in the remaining steps. -/
def stepLoop (cfg : Cfg) (plan : Plan) : List PlanStep → St → Option St
  | [], st => some st
  | step :: rest, st =>
    if st.aborted then some st
    else if step.step_id ∈ st.skipped then stepLoop cfg plan rest st
    else if ∃ d ∈ step.depends_on, d ∈ st.skipped then
      stepLoop cfg plan rest { st with skipped := addSkip step.step_id st.skipped }
    else
      match attemptLoop cfg plan step cfg.aFuel false st with
      | none => none
      | some (st2, completed) =>
        if st2.aborted ∨ st2.need_replan then some st2
        else if step.step_id ∈ st2.skipped then stepLoop cfg plan rest st2
        else if completed then
          stepLoop cfg plan rest { st2 with
            fail_on_step_id :=
              if st2.fail_on_step_id = some step.step_id then none
              else st2.fail_on_step_id }
        else stepLoop cfg plan rest st2

/-! ## Planning loops (`service.py` lines 74-120 and 345-375) -/

/-- One bounded conversational loop with the planner (`for turn in range(10)`):
form outputs consume a user reply, a plan output stores it and stops, anything
else is a no-op turn.  Used for both initial planning and replanning. -/
def planningLoop (C : Collab) : Nat → St → St
  | 0, st => st
  | n + 1, st =>
    match C.planner st.planner_idx with
    | PlannerOutput.form _ =>
      planningLoop C n { st with
        planner_idx := st.planner_idx + 1
        conversation := st.conversation ++ [C.userMsg st.user_idx]
        user_idx := st.user_idx + 1 }
    | PlannerOutput.plan p =>
      { st with planner_idx := st.planner_idx + 1, plan_dict := some p }
    | PlannerOutput.other _ => planningLoop C n { st with planner_idx := st.planner_idx + 1 }

/-- The auto-correction loop (lines 140-184): while validation errors remain and
fewer than 3 corrected plans were tried, ask the planner again; `form` outputs
wait for the user and do not count; a `plan` output is re-validated and counts;
anything else breaks.  Returns the state, remaining errors, and the number of
corrected-plan attempts made. -/
def correctionLoop (cfg : Cfg) :
    Nat → St → List ValidationError → Nat → Option (St × List ValidationError × Nat)
  | fuel, st, errs, retries =>
    if errs = [] ∨ ¬ retries < 3 then some (st, errs, retries)
    else
      match fuel with
      | 0 => none
      | f + 1 =>
        match cfg.C.planner st.planner_idx with
        | PlannerOutput.form _ =>
          correctionLoop cfg f { st with
            planner_idx := st.planner_idx + 1
            conversation := st.conversation ++ [cfg.C.userMsg st.user_idx]
            user_idx := st.user_idx + 1 } errs retries
        | PlannerOutput.plan p =>
          correctionLoop cfg f { st with planner_idx := st.planner_idx + 1, plan_dict := some p }
            (validate_plan cfg.O p cfg.registry) (retries + 1)
        | PlannerOutput.other _ =>
          some ({ st with planner_idx := st.planner_idx + 1 }, errs, retries)

/-! ## Outer execution loop and finalization (`service.py` lines 222-447) -/

/-- The outer `while True` loop: walk the steps; on replan, run the planning loop
again, and on a valid new plan clear the skip-set and trace and restart the walk;
a failed replan aborts the run.  Returns the plan in effect at the end of the walk
together with the final state. -/
def outerLoop (cfg : Cfg) : Nat → Plan → St → Option (Plan × St)
  | 0, _, _ => none
  | f + 1, planModel, st =>
    match stepLoop cfg planModel planModel.steps { st with need_replan := false } with
    | none => none
    | some st1 =>
      if st1.aborted then some (planModel, st1)
      else if st1.need_replan then
        let st2 := planningLoop cfg.C 10 st1
        match st2.plan_dict with
        | some pd =>
          if validate_plan cfg.O pd cfg.registry = [] then
            outerLoop cfg f pd { st2 with skipped := [], exec_trace := [] }
          else some (planModel, { st2 with aborted := true })
        | none => some (planModel, { st2 with aborted := true })
      else some (planModel, st1)

def statusStr : RunStatus → String
  | RunStatus.SUCCESS => "SUCCESS"
  | RunStatus.PARTIAL => "PARTIAL"
  | RunStatus.FAILED => "FAILED"
  | RunStatus.CANCELLED => "CANCELLED"

/-- `sorted(list(skipped_steps))`. -/
def insertSorted (x : String) : List String → List String
  | [] => [x]
  | y :: t => if x ≤ y then x :: y :: t else y :: insertSorted x t

def sortStrings (l : List String) : List String := l.foldr insertSorted []

/-- Terminal status computation, `service.py` line 391. -/
def finalStatus (st : St) : RunStatus :=
  if st.aborted then RunStatus.CANCELLED
  else if st.skipped ≠ [] ∨
      st.exec_trace.any (fun e => e.type == ExecutionEventType.STEP_FAILED) then
    RunStatus.PARTIAL
  else RunStatus.SUCCESS

/-- The outcome of a completed run: the returned `RunResult`, plus (for the
specification) the archive payload handed to the archivist, if any, and the
accepted plan and walk-end state when execution was reached. -/
structure RunOutcome where
  result : RunResult
  archivePayload : Option ArchivePayload := none
  finalWalk : Option (Plan × St) := none
deriving DecidableEq

/-- Run finalization (lines 389-447): fetch the post snapshot, compute the status,
append the run-level `RUN_SUMMARY`, hand the record to the archivist (failures
swallowed), and build the `RunResult`. -/
def finishRun (cfg : Cfg) (planModel : Plan) (st : St) : RunOutcome :=
  let post_state := cfg.C.fetchState 1
  let status := finalStatus st
  let summary : ExecEvent :=
    { type := ExecutionEventType.RUN_SUMMARY
      message := some ("Run completed with status " ++ statusStr status)
      output := some (EventOutput.summary status (sortStrings st.skipped) planModel.steps.length) }
  let exec_trace := st.exec_trace ++ [summary]
  let payload : ArchivePayload :=
    { run_id := cfg.runId
      tool_key := cfg.toolKey
      intent := cfg.intent
      registry_version := cfg.registry.version
      conversation := st.conversation
      plan := st.plan_dict
      exec_trace := exec_trace
      pre_state := cfg.C.fetchState 0
      post_state := post_state
      status := status }
  let archive_ref := match cfg.C.storeRun payload with
    | Except.ok r => r
    | Except.error _ => none
  { result :=
      { run_id := cfg.runId
        status := status
        tool_key := cfg.toolKey
        intent := cfg.intent
        registry_version := cfg.registry.version
        plan := some planModel
        execution_trace := exec_trace
        pre_state := cfg.C.fetchState 0
        post_state := post_state
        archive_ref := archive_ref }
    archivePayload := some payload
    finalWalk := some (planModel, st) }

def planningTimeoutError : ErrorEnvelope :=
  { code := "PLANNING_TIMEOUT"
    message := "Planning loop ended without PLAN_FINAL"
    source := ErrorSource.PLANNER
    severity := ErrorSeverity.RUN
    retryable := false }

/-- Mapping of a remaining validation error to the run-failure envelope
(lines 193-203); `err.step_id` is tested for Python truthiness. -/
def valErrToEnvelope (err : ValidationError) : ErrorEnvelope :=
  { code := err.code
    message := err.message
    source := ErrorSource.PLANNER
    step_id := err.step_id
    severity := if pyTruthy err.step_id then ErrorSeverity.STEP else ErrorSeverity.RUN
    retryable := false }

/-- `OrchestratorService.start_run`.  `none` models a run that never returns
within the supplied fuel (an unbounded loop or a wait that never matches). -/
def start_run (cfg : Cfg) : Option RunOutcome :=
  let pre_state := cfg.C.fetchState 0
  let st1 := planningLoop cfg.C 10 {}
  match st1.plan_dict with
  | none =>
    -- lines 122-138
    some { result :=
      { run_id := cfg.runId
        status := RunStatus.FAILED
        tool_key := cfg.toolKey
        intent := cfg.intent
        pre_state := pre_state
        errors := [planningTimeoutError] } }
  | some pd0 =>
    match correctionLoop cfg cfg.cFuel st1 (validate_plan cfg.O pd0 cfg.registry) 0 with
    | none => none
    | some (st2, errs1, _) =>
      if errs1 = [] then
        -- line 206: `Plan(**plan_dict)`; `plan_dict` is non-`None` on this path
        let planModel := st2.plan_dict.getD pd0
        -- lines 209-212
        let st3 := { st2 with
          skipped := [], exec_trace := [], aborted := false, need_replan := false
          fail_on_step_id := cfg.userContext.join }
        match outerLoop cfg cfg.oFuel planModel st3 with
        | none => none
        | some (fp, stF) => some (finishRun cfg fp stF)
      else
        -- lines 186-204
        some { result :=
          { run_id := cfg.runId
            status := RunStatus.FAILED
            tool_key := cfg.toolKey
            intent := cfg.intent
            pre_state := pre_state
            errors := errs1.map valErrToEnvelope } }

/-! ## The mock executor (`app/executor/impl_mock.py`) -/

def mockFailureEnvelope (sid : String) : ErrorEnvelope :=
  { code := "MOCK_FAILURE"
    message := "Mock failure for testing"
    source := ErrorSource.EXECUTOR
    step_id := some sid
    retryable := true
    severity := ErrorSeverity.STEP }

def mockStepEvents (failOn : Option String) : List PlanStep → List ExecEvent
  | [] => [{ type := ExecutionEventType.RUN_SUMMARY }]
  | s :: t =>
    { type := ExecutionEventType.STEP_STARTED, step_id := some s.step_id } ::
    { type := ExecutionEventType.STEP_LOG, step_id := some s.step_id
      message := some ("Executing " ++ s.op_id) } ::
    (if failOn = some s.step_id then
      [{ type := ExecutionEventType.STEP_FAILED, step_id := some s.step_id
         error := some (mockFailureEnvelope s.step_id) }]
    else
      { type := ExecutionEventType.STEP_DONE, step_id := some s.step_id
        output := some (EventOutput.stepOk s.step_id) } :: mockStepEvents failOn t)

/-- `MockExecutor.execute_plan`: per step START/LOG then FAILED (stopping) or DONE,
and a trailing `RUN_SUMMARY` when no step failed.  Ignores the user context. -/
def mock_execute_plan (plan : Plan) (_uc : Option (Option String)) (failOn : Option String) :
    List ExecEvent :=
  mockStepEvents failOn plan.steps

/-! ## Specification-side graph notions -/

/-- Reflexive closure of `ReachPlus`. -/
def ReachStar (adj : List (String × List String)) (a b : String) : Prop :=
  a = b ∨ ReachPlus adj a b

/-- The invariant of the `visiting` stack: consecutive entries are joined by
`depends_on` edges, oldest entry last. -/
def StackChain (adj : List (String × List String)) : List String → Prop
  | [] => True
  | [_] => True
  | a :: b :: t => Edge adj b a ∧ StackChain adj (b :: t)

/-- The call-site condition of `dfs`: the node is a dependency of the stack top. -/
def HeadEdge (adj : List (String × List String)) (vg : List String) (c : String) : Prop :=
  ∀ p t, vg = p :: t → Edge adj p c

/-- The invariant of the `visited` list (newest first): every dependency of a
finished node is itself finished, strictly earlier. -/
def TopoVd (adj : List (String × List String)) : List String → Prop
  | [] => True
  | x :: t => (∀ b, Edge adj x b → b ∈ t) ∧ TopoVd adj t

/-- Invariants carried by the `visited` list through the traversal, relative to
the current `visiting` stack. -/
def VdInv (adj : List (String × List String)) (vg vd : List String) : Prop :=
  (∀ x ∈ vd, x ∈ nodesU adj) ∧ vd.Nodup ∧ (∀ x ∈ vd, x ∉ vg) ∧ TopoVd adj vd

/-! ## Specification-side run-controller notions -/

/-- `b` directly depends on `a` in this step list. -/
def RevEdge (steps : List PlanStep) (a b : String) : Prop :=
  ∃ s ∈ steps, s.step_id = b ∧ a ∈ s.depends_on

/-- `b` is a (transitive, non-reflexive-closure) dependent of `a`: a non-empty
chain of `depends_on` edges leads from `a` up to `b`. -/
inductive Dependent (steps : List PlanStep) : String → String → Prop where
  | single {a b : String} : RevEdge steps a b → Dependent steps a b
  | tail {a b c : String} : Dependent steps a b → RevEdge steps b c → Dependent steps a c

/-- Declared order is consistent with `depends_on`: every dependency refers to a
step declared strictly earlier (the explicit assumption of spec section 4.4). -/
def DepsBefore (seen : List String) : List PlanStep → Prop
  | [] => True
  | s :: t => (∀ d ∈ s.depends_on, d ∈ seen) ∧ DepsBefore (s.step_id :: seen) t

/-- Pure simulation of one clean forward walk (mock executor, no fault target):
per step, in declared order — already skipped: nothing; a dependency skipped:
the step joins the skip-set; otherwise it runs and emits START/LOG/DONE.
Returns the final skip-set and the emitted trace. -/
def cleanWalkSim : List PlanStep → List String → List String × List ExecEvent
  | [], acc => (acc, [])
  | s :: rest, acc =>
    if s.step_id ∈ acc then cleanWalkSim rest acc
    else if ∃ d ∈ s.depends_on, d ∈ acc then cleanWalkSim rest (acc ++ [s.step_id])
    else
      let r := cleanWalkSim rest acc
      (r.1,
        { type := ExecutionEventType.STEP_STARTED, step_id := some s.step_id } ::
        { type := ExecutionEventType.STEP_LOG, step_id := some s.step_id
          message := some ("Executing " ++ s.op_id) } ::
        { type := ExecutionEventType.STEP_DONE, step_id := some s.step_id
          output := some (EventOutput.stepOk s.step_id) } :: r.2)

/-! ## Concrete scenario data used by witnesses and counterexamples -/

def regW : Registry := { version := some "v1", operations := [{ op_id := "op" }] }

def OW : ValOracle := { planSchema := fun _ => none, paramSchema := fun _ _ => none }

def stepW (sid : String) (deps : List String) : PlanStep :=
  { step_id := sid, op_id := "op", depends_on := deps }

def planLin : Plan :=
  { plan_id := "p1", tool_key := "clickup", objective := "obj"
    steps := [stepW "S1" [], stepW "S2" ["S1"], stepW "S3" ["S2"]] }

def planOne : Plan :=
  { plan_id := "p1", tool_key := "clickup", objective := "obj", steps := [stepW "S1" []] }

def planNew : Plan :=
  { plan_id := "p2", tool_key := "clickup", objective := "obj2", steps := [stepW "T1" []] }

/-- A plan whose declared order is inconsistent with `depends_on` (the validator
does not reject this): P2 before its dependency P1, which depends on X. -/
def planWeird : Plan :=
  { plan_id := "w", tool_key := "t", objective := "o"
    steps := [stepW "P2" ["P1"], stepW "X" [], stepW "P1" ["X"], stepW "C" ["P2"]] }

/-- A plan with a cycle (B and C) not containing the first declared step A. -/
def planCyc : Plan :=
  { plan_id := "p", tool_key := "t", objective := "o"
    steps := [stepW "A" ["B"], stepW "B" ["C"], stepW "C" ["B"]] }

def collabW (planner : Nat → PlannerOutput) (dec : Nat → DecisionResponse) : Collab :=
  { planner := planner
    userMsg := fun _ => "msg"
    decision := dec
    execPlan := mock_execute_plan
    fetchState := fun _ => [("env", "x")]
    storeRun := fun _ => Except.ok (some "ref1") }

def cfgW (planner : Nat → PlannerOutput) (dec : Nat → DecisionResponse)
    (fail : Option String) : Cfg :=
  { C := collabW planner dec
    runId := "R"
    toolKey := "clickup"
    intent := "i"
    userContext := some fail
    registry := regW
    O := OW
    aFuel := 5, dFuel := 5, cFuel := 5, oFuel := 5 }

def decFor (sid decision : String) : Nat → DecisionResponse :=
  fun _ => DecisionResponse.dict (some "R") (some sid) (some decision)

/-- Scenario for C2: one-step plan, fault injected on S1, operator retries. -/
def cfgRetry : Cfg :=
  cfgW (fun _ => PlannerOutput.plan planOne) (decFor "S1" "RETRY_STEP") (some "S1")

/-- Scenario for C5: linear plan, fault on S2, operator skips dependents. -/
def cfgSkipDep : Cfg :=
  cfgW (fun _ => PlannerOutput.plan planLin) (decFor "S2" "SKIP_DEPENDENTS") (some "S2")

/-- Counterexample scenario for C5: declared order inconsistent with deps. -/
def cfgWeird : Cfg :=
  cfgW (fun _ => PlannerOutput.plan planWeird) (decFor "X" "SKIP_DEPENDENTS") (some "X")

/-- Scenario for C9: linear plan, fault on S2, operator aborts. -/
def cfgAbort : Cfg :=
  cfgW (fun _ => PlannerOutput.plan planLin) (decFor "S2" "ABORT_RUN") (some "S2")

/-- Scenario for C8: fault on S2, replan; the planner then produces `planNew`. -/
def cfgReplan : Cfg :=
  cfgW (fun i => if i = 0 then PlannerOutput.plan planLin else PlannerOutput.plan planNew)
    (decFor "S2" "REPLAN") (some "S2")

/-- Scenario for C6: the planner only ever asks for more information. -/
def cfgForms : Cfg :=
  cfgW (fun _ => PlannerOutput.form "need info") (fun _ => DecisionResponse.raw "x") none

/-- Scenario for C7: the planner only ever produces an invalid plan
(dangling dependency). -/
def planBad : Plan :=
  { plan_id := "bp", tool_key := "t", objective := "o", steps := [stepW "Y" ["Z"]] }

def cfgBad : Cfg :=
  { cfgW (fun _ => PlannerOutput.plan planBad) (fun _ => DecisionResponse.raw "x") none with
    cFuel := 10 }

/-- Scenario for C10 and C1 witnesses: a plain successful run. -/
def cfgPlain : Cfg :=
  cfgW (fun _ => PlannerOutput.plan planLin) (fun _ => DecisionResponse.raw "x") none

/-- Decision stream for the C3 counterexample: a decision for (R, S2) is queued
first, then one for (R, S1), then another for (R, S2). -/
def ds3 : Nat → DecisionResponse
  | 0 => DecisionResponse.dict (some "R") (some "S2") (some "SKIP_STEP")
  | 1 => DecisionResponse.dict (some "R") (some "S1") (some "RETRY_STEP")
  | _ => DecisionResponse.dict (some "R") (some "S2") (some "ABORT_RUN")

def collab3 : Collab := collabW (fun _ => PlannerOutput.plan planOne) ds3

/-- The events the mock executor produces for one step. -/
def startedEv (s : PlanStep) : ExecEvent :=
  { type := ExecutionEventType.STEP_STARTED, step_id := some s.step_id }

def logEv (s : PlanStep) : ExecEvent :=
  { type := ExecutionEventType.STEP_LOG, step_id := some s.step_id
    message := some ("Executing " ++ s.op_id) }

def doneEv (s : PlanStep) : ExecEvent :=
  { type := ExecutionEventType.STEP_DONE, step_id := some s.step_id
    output := some (EventOutput.stepOk s.step_id) }

def failedEv (s : PlanStep) : ExecEvent :=
  { type := ExecutionEventType.STEP_FAILED, step_id := some s.step_id
    error := some (mockFailureEnvelope s.step_id) }

/-! # Theorems

## Graph theory for the DFS cycle detector -/

theorem reachPlus_snoc {adj : List (String × List String)} {a b c : String}
    (h : ReachPlus adj a b) (e : Edge adj b c) : ReachPlus adj a c := by
  induction h with
  | single h1 => exact ReachPlus.head h1 (ReachPlus.single e)
  | head h1 _ ih => exact ReachPlus.head h1 (ih e)

theorem reachStar_snoc {adj : List (String × List String)} {a b c : String}
    (h : ReachStar adj a b) (e : Edge adj b c) : ReachPlus adj a c := by
  cases h with
  | inl h1 => subst h1; exact ReachPlus.single e
  | inr h1 => exact reachPlus_snoc h1 e

theorem stackChain_reach {adj : List (String × List String)} :
    ∀ (t : List String) (p x : String), StackChain adj (p :: t) → x ∈ p :: t →
      ReachStar adj x p := by
  intro t
  induction t with
  | nil =>
    intro p x _ hx
    rw [List.mem_singleton] at hx
    exact Or.inl hx
  | cons q t ih =>
    intro p x hsc hx
    simp only [StackChain] at hsc
    rcases List.mem_cons.mp hx with h1 | h1
    · exact Or.inl h1
    · exact Or.inr (reachStar_snoc (ih q x hsc.2 h1) hsc.1)

/-- The `visiting` stack is restored on every `false` return
(`visiting.add` on entry, `visiting.remove` on exit). -/
theorem dfs_restore (adj : List (String × List String)) : ∀ f : Nat,
    (∀ n vg vd vg2 vd2, dfs adj f n vg vd = (false, vg2, vd2) → vg2 = vg) ∧
    (∀ cs vg vd vg2 vd2, dfsL adj f cs vg vd = (false, vg2, vd2) → vg2 = vg) := by
  intro f
  induction f with
  | zero =>
    constructor
    · intro n vg vd vg2 vd2 h
      simp only [dfs, Prod.mk.injEq] at h
      exact h.2.1.symm
    · intro cs vg vd vg2 vd2 h
      simp only [dfsL, Prod.mk.injEq] at h
      exact h.2.1.symm
  | succ f ih =>
    obtain ⟨ihD, ihL⟩ := ih
    constructor
    · intro n vg vd vg2 vd2 h
      simp only [dfs] at h
      by_cases hvg : n ∈ vg
      · rw [if_pos hvg] at h; cases h
      · rw [if_neg hvg] at h
        by_cases hvd : n ∈ vd
        · rw [if_pos hvd] at h
          simp only [Prod.mk.injEq] at h
          exact h.2.1.symm
        · rw [if_neg hvd] at h
          rcases hL : dfsL adj f (adjGet adj n) (n :: vg) vd with ⟨b, vgc, vdc⟩
          rw [hL] at h
          cases b
          · simp only [Prod.mk.injEq] at h
            have hre : vgc = n :: vg := ihL _ _ _ _ _ hL
            subst hre
            rw [← h.2.1, List.erase_cons_head]
          · cases h
    · intro cs vg vd vg2 vd2 h
      cases cs with
      | nil =>
        simp only [dfsL, Prod.mk.injEq] at h
        exact h.2.1.symm
      | cons c cs =>
        simp only [dfsL] at h
        rcases hD : dfs adj f c vg vd with ⟨b, vgc, vdc⟩
        rw [hD] at h
        cases b
        · have h1 : vgc = vg := ihD _ _ _ _ _ hD
          subst h1
          exact ihL _ _ _ _ _ h
        · cases h

/-- Soundness of the traversal: a `true` return means the graph has a cycle. -/
theorem dfs_sound (adj : List (String × List String)) : ∀ f : Nat,
    (∀ n vg vd vg2 vd2, dfs adj f n vg vd = (true, vg2, vd2) →
      StackChain adj vg → HeadEdge adj vg n → HasCycle adj) ∧
    (∀ cs vg vd vg2 vd2, dfsL adj f cs vg vd = (true, vg2, vd2) →
      StackChain adj vg → (∀ c ∈ cs, HeadEdge adj vg c) → HasCycle adj) := by
  intro f
  induction f with
  | zero =>
    constructor
    · intro n vg vd vg2 vd2 h
      simp only [dfs] at h
      cases h
    · intro cs vg vd vg2 vd2 h
      simp only [dfsL] at h
      cases h
  | succ f ih =>
    obtain ⟨ihD, ihL⟩ := ih
    constructor
    · intro n vg vd vg2 vd2 h hsc hhe
      simp only [dfs] at h
      by_cases hvg : n ∈ vg
      · -- the cycle is closed here: n is on the visiting stack
        cases vg with
        | nil => cases hvg
        | cons p t =>
          have hpn : Edge adj p n := hhe p t rfl
          exact ⟨n, reachStar_snoc (stackChain_reach t p n hsc hvg) hpn⟩
      · rw [if_neg hvg] at h
        by_cases hvd : n ∈ vd
        · rw [if_pos hvd] at h; cases h
        · rw [if_neg hvd] at h
          rcases hL : dfsL adj f (adjGet adj n) (n :: vg) vd with ⟨b, vgc, vdc⟩
          rw [hL] at h
          cases b
          · cases h
          · refine ihL _ _ _ _ _ hL ?_ ?_
            · cases vg with
              | nil => simp [StackChain]
              | cons p t =>
                simp only [StackChain]
                exact ⟨hhe p t rfl, hsc⟩
            · intro c hc p' t' heq
              cases heq
              exact hc
    · intro cs vg vd vg2 vd2 h hsc hhe
      cases cs with
      | nil => simp only [dfsL] at h; cases h
      | cons c cs =>
        simp only [dfsL] at h
        rcases hD : dfs adj f c vg vd with ⟨b, vgc, vdc⟩
        rw [hD] at h
        cases b
        · have h1 : vgc = vg := (dfs_restore adj f).1 _ _ _ _ _ hD
          subst h1
          exact ihL _ _ _ _ _ h hsc (fun x hx => hhe x (List.mem_cons_of_mem c hx))
        · exact ihD _ _ _ _ _ hD hsc (hhe c (List.mem_cons_self c cs))

theorem adjGet_sub_nodesU (adj : List (String × List String)) (n : String) :
    ∀ c ∈ adjGet adj n, c ∈ nodesU adj := by
  intro c hc
  unfold adjGet lookupLast at hc
  cases hfind : adj.reverse.find? (fun p => p.1 == n) with
  | none => rw [hfind] at hc; simp at hc
  | some p =>
    rw [hfind] at hc
    simp at hc
    have hp : p ∈ adj := List.mem_reverse.mp (List.mem_of_find?_eq_some hfind)
    unfold nodesU
    exact List.mem_append_right _
      (List.mem_flatten.mpr ⟨p.2, List.mem_map_of_mem _ hp, hc⟩)

theorem adjGet_len_le (adj : List (String × List String)) (n : String) :
    (adjGet adj n).length ≤ degTotal adj := by
  unfold adjGet lookupLast degTotal
  cases hfind : adj.reverse.find? (fun p => p.1 == n) with
  | none => simp
  | some p =>
    have hp : p ∈ adj := List.mem_reverse.mp (List.mem_of_find?_eq_some hfind)
    have h1 : p.2.length ≤ ((adj.map (·.2)).flatten).length := by
      rw [List.length_flatten]
      refine List.single_le_sum (fun x _ => Nat.zero_le x) _ ?_
      rw [List.map_map]
      exact List.mem_map_of_mem _ hp
    simpa using h1

theorem nodup_sub_length {l1 l2 : List String} (h : l1.Nodup) (hs : ∀ x ∈ l1, x ∈ l2) :
    l1.length ≤ l2.length :=
  (h.subperm hs).length_le

/-- Completeness invariants: on a `false` return with sufficient fuel, the node is
finished, `visited` grows, and the `visited` invariants are preserved. -/
theorem dfs_complete (adj : List (String × List String)) : ∀ f : Nat,
    (∀ n vg vd vg2 vd2,
      dfs adj f n vg vd = (false, vg2, vd2) →
      (nodesU adj).length * (degTotal adj + 1) < f + vg.length * (degTotal adj + 1) →
      (∀ x ∈ vg, x ∈ nodesU adj) → vg.Nodup →
      n ∈ nodesU adj →
      VdInv adj vg vd →
      (∀ x ∈ vd, x ∈ vd2) ∧ n ∈ vd2 ∧ VdInv adj vg vd2) ∧
    (∀ cs vg vd vg2 vd2,
      dfsL adj f cs vg vd = (false, vg2, vd2) →
      (nodesU adj).length * (degTotal adj + 1) + cs.length
        < f + vg.length * (degTotal adj + 1) →
      (∀ x ∈ vg, x ∈ nodesU adj) → vg.Nodup →
      (∀ c ∈ cs, c ∈ nodesU adj) →
      VdInv adj vg vd →
      (∀ x ∈ vd, x ∈ vd2) ∧ (∀ c ∈ cs, c ∈ vd2) ∧ VdInv adj vg vd2) := by
  intro f
  induction f with
  | zero =>
    constructor
    · intro n vg vd vg2 vd2 _ hfu hvgU hvgN _ _
      exfalso
      have h1 : vg.length ≤ (nodesU adj).length := nodup_sub_length hvgN hvgU
      have h2 : vg.length * (degTotal adj + 1) ≤ (nodesU adj).length * (degTotal adj + 1) :=
        Nat.mul_le_mul_right _ h1
      omega
    · intro cs vg vd vg2 vd2 _ hfu hvgU hvgN _ _
      exfalso
      have h1 : vg.length ≤ (nodesU adj).length := nodup_sub_length hvgN hvgU
      have h2 : vg.length * (degTotal adj + 1) ≤ (nodesU adj).length * (degTotal adj + 1) :=
        Nat.mul_le_mul_right _ h1
      omega
  | succ f ih =>
    obtain ⟨ihD, ihL⟩ := ih
    constructor
    · intro n vg vd vg2 vd2 h hfu hvgU hvgN hnU hinv
      obtain ⟨hvdU, hvdN, hvddis, htopo⟩ := hinv
      simp only [dfs] at h
      by_cases hvg : n ∈ vg
      · rw [if_pos hvg] at h; cases h
      · rw [if_neg hvg] at h
        by_cases hvd : n ∈ vd
        · rw [if_pos hvd] at h
          simp only [Prod.mk.injEq] at h
          rw [← h.2.2]
          exact ⟨fun x hx => hx, hvd, hvdU, hvdN, hvddis, htopo⟩
        · rw [if_neg hvd] at h
          rcases hL : dfsL adj f (adjGet adj n) (n :: vg) vd with ⟨b, vgc, vdc⟩
          rw [hL] at h
          cases b
          · simp only [Prod.mk.injEq] at h
            -- fuel bound for the children call
            have hdeg : (adjGet adj n).length ≤ degTotal adj := adjGet_len_le adj n
            have hfu2 : (nodesU adj).length * (degTotal adj + 1) + (adjGet adj n).length
                < f + (n :: vg).length * (degTotal adj + 1) := by
              simp only [List.length_cons]
              have : (vg.length + 1) * (degTotal adj + 1)
                  = vg.length * (degTotal adj + 1) + (degTotal adj + 1) := by ring
              omega
            have hc := ihL (adjGet adj n) (n :: vg) vd vgc vdc hL hfu2
              (fun x hx => by
                rcases List.mem_cons.mp hx with h1 | h1
                · rw [h1]; exact hnU
                · exact hvgU x h1)
              (List.nodup_cons.mpr ⟨hvg, hvgN⟩)
              (adjGet_sub_nodesU adj n)
              ⟨hvdU, hvdN,
               fun x hx => by
                 intro hmem
                 rcases List.mem_cons.mp hmem with h1 | h1
                 · rw [h1] at hx; exact hvd hx
                 · exact hvddis x hx h1,
               htopo⟩
            obtain ⟨hmono, hchild, hvdcU, hvdcN, hvdcdis, htopoc⟩ := hc
            rw [← h.2.2]
            refine ⟨fun x hx => List.mem_cons_of_mem n (hmono x hx),
                    List.mem_cons_self n vdc, ?_, ?_, ?_, ?_⟩
            · intro x hx
              rcases List.mem_cons.mp hx with h1 | h1
              · rw [h1]; exact hnU
              · exact hvdcU x h1
            · exact List.nodup_cons.mpr
                ⟨fun hmem => (hvdcdis n hmem) (List.mem_cons_self n vg), hvdcN⟩
            · intro x hx
              rcases List.mem_cons.mp hx with h1 | h1
              · rw [h1]; exact hvg
              · exact fun hm => hvdcdis x h1 (List.mem_cons_of_mem n hm)
            · exact ⟨fun b hb => hchild b hb, htopoc⟩
          · cases h
    · intro cs vg vd vg2 vd2 h hfu hvgU hvgN hcsU hinv
      cases cs with
      | nil =>
        simp only [dfsL, Prod.mk.injEq] at h
        rw [← h.2.2]
        exact ⟨fun x hx => hx, fun c hc => absurd hc (List.not_mem_nil c), hinv⟩
      | cons c cs =>
        simp only [dfsL] at h
        rcases hD : dfs adj f c vg vd with ⟨b, vgc, vdc⟩
        rw [hD] at h
        cases b
        · have hre : vgc = vg := (dfs_restore adj f).1 _ _ _ _ _ hD
          rw [hre] at hD h
          have hd := ihD c vg vd vg vdc hD (by simp only [List.length_cons] at hfu; omega)
            hvgU hvgN (hcsU c (List.mem_cons_self c cs)) hinv
          obtain ⟨hmono1, hcmem, hinvc⟩ := hd
          have hl := ihL cs vg vdc vg2 vd2 h (by simp only [List.length_cons] at hfu; omega)
            hvgU hvgN (fun x hx => hcsU x (List.mem_cons_of_mem c hx)) hinvc
          obtain ⟨hmono2, hcsmem, hinv2⟩ := hl
          refine ⟨fun x hx => hmono2 x (hmono1 x hx), ?_, hinv2⟩
          intro x hx
          rcases List.mem_cons.mp hx with h1 | h1
          · rw [h1]; exact hmono2 c hcmem
          · exact hcsmem x h1
        · cases h

theorem topo_edge {adj : List (String × List String)} :
    ∀ vd : List String, TopoVd adj vd → vd.Nodup → ∀ a b, a ∈ vd → Edge adj a b →
      b ∈ vd ∧ List.indexOf a vd < List.indexOf b vd := by
  intro vd
  induction vd with
  | nil => intro _ _ a b ha; cases ha
  | cons x t ih =>
    intro htopo hnd a b ha he
    simp only [TopoVd] at htopo
    obtain ⟨hx, ht⟩ := htopo
    have hxnott := (List.nodup_cons.mp hnd).1
    have hndt := (List.nodup_cons.mp hnd).2
    rcases List.mem_cons.mp ha with h1 | h1
    · subst h1
      have hb : b ∈ t := hx b he
      have hab : a ≠ b := fun e => hxnott (e ▸ hb)
      refine ⟨List.mem_cons_of_mem _ hb, ?_⟩
      rw [List.indexOf_cons_self, List.indexOf_cons_ne t hab]
      omega
    · obtain ⟨hb, hlt⟩ := ih ht hndt a b h1 he
      have hax : x ≠ a := fun e => hxnott (e ▸ h1)
      have hbx : x ≠ b := fun e => hxnott (e ▸ hb)
      refine ⟨List.mem_cons_of_mem _ hb, ?_⟩
      rw [List.indexOf_cons_ne t hax, List.indexOf_cons_ne t hbx]
      omega

theorem topo_reach {adj : List (String × List String)} {vd : List String}
    (htopo : TopoVd adj vd) (hnd : vd.Nodup) {a b : String} (h : ReachPlus adj a b)
    (ha : a ∈ vd) : b ∈ vd ∧ List.indexOf a vd < List.indexOf b vd := by
  induction h with
  | single h1 => exact topo_edge vd htopo hnd _ _ ha h1
  | head h1 _ ih =>
    obtain ⟨hx, hlt1⟩ := topo_edge vd htopo hnd _ _ ha h1
    obtain ⟨hb, hlt2⟩ := ih hx
    exact ⟨hb, Nat.lt_trans hlt1 hlt2⟩

theorem topo_no_cycle {adj : List (String × List String)} {vd : List String}
    (htopo : TopoVd adj vd) (hnd : vd.Nodup) {a : String} (h : ReachPlus adj a a)
    (ha : a ∈ vd) : False := by
  obtain ⟨-, hlt⟩ := topo_reach htopo hnd h ha
  omega

theorem mem_pyKeysAux :
    ∀ (l : List (String × List String)) (seen : List String) (x : String),
      x ∈ pyKeysAux seen l ↔ x ∈ l.map (·.1) ∧ x ∉ seen := by
  intro l
  induction l with
  | nil => intro seen x; simp [pyKeysAux]
  | cons p t ih =>
    intro seen x
    rcases p with ⟨k, v⟩
    simp only [pyKeysAux, List.map_cons, List.mem_cons]
    by_cases hk : k ∈ seen
    · rw [if_pos hk, ih]
      constructor
      · rintro ⟨h1, h2⟩; exact ⟨Or.inr h1, h2⟩
      · rintro ⟨h1 | h1, h2⟩
        · subst h1; exact absurd hk h2
        · exact ⟨h1, h2⟩
    · rw [if_neg hk]
      simp only [List.mem_cons, ih]
      constructor
      · rintro (h1 | ⟨h1, h2⟩)
        · subst h1; exact ⟨Or.inl rfl, hk⟩
        · exact ⟨Or.inr h1, fun hs => h2 (Or.inr hs)⟩
      · rintro ⟨h1 | h1, h2⟩
        · exact Or.inl h1
        · by_cases hxk : x = k
          · exact Or.inl hxk
          · refine Or.inr ⟨h1, fun hs => ?_⟩
            rcases hs with h3 | h3
            · exact hxk h3
            · exact h2 h3

theorem mem_pyKeys {adj : List (String × List String)} {x : String} :
    x ∈ pyKeys adj ↔ x ∈ adj.map (·.1) := by
  rw [pyKeys, mem_pyKeysAux]
  simp

theorem pyKeys_sub_nodesU (adj : List (String × List String)) :
    ∀ k ∈ pyKeys adj, k ∈ nodesU adj := by
  intro k hk
  exact List.mem_append_left _ (mem_pyKeys.mp hk)

theorem edge_src_mem_keys {adj : List (String × List String)} {a b : String}
    (h : Edge adj a b) : a ∈ pyKeys adj := by
  rw [mem_pyKeys]
  unfold Edge adjGet lookupLast at h
  cases hfind : adj.reverse.find? (fun p => p.1 == a) with
  | none => rw [hfind] at h; simp at h
  | some p =>
    rw [hfind] at h
    have hp : p ∈ adj := List.mem_reverse.mp (List.mem_of_find?_eq_some hfind)
    have hpa : p.1 = a := by
      have := List.find?_some hfind
      simpa using this
    exact hpa ▸ List.mem_map_of_mem _ hp

theorem reachPlus_first_edge {adj : List (String × List String)} {a b : String}
    (h : ReachPlus adj a b) : ∃ c, Edge adj a c := by
  cases h with
  | single h1 => exact ⟨_, h1⟩
  | head h1 _ => exact ⟨_, h1⟩

theorem reachPlus_last_edge {adj : List (String × List String)} {a b : String}
    (h : ReachPlus adj a b) : ∃ x, Edge adj x b := by
  induction h with
  | single h1 => exact ⟨_, h1⟩
  | head _ _ ih => exact ih

theorem scanNodes_sound (adj : List (String × List String)) (fuel : Nat) :
    ∀ (ks : List String) (vd : List String) (k : String),
      scanNodes adj fuel ks [] vd = some k → HasCycle adj := by
  intro ks
  induction ks with
  | nil => intro vd k h; cases h
  | cons k2 ks ih =>
    intro vd k h
    simp only [scanNodes] at h
    rcases hD : dfs adj fuel k2 [] vd with ⟨b, vgc, vdc⟩
    rw [hD] at h
    cases b
    · have hre : vgc = [] := (dfs_restore adj fuel).1 _ _ _ _ _ hD
      subst hre
      exact ih vdc k h
    · exact (dfs_sound adj fuel).1 k2 [] vd vgc vdc hD (by simp [StackChain])
        (fun p t heq => by cases heq)

theorem scanFuel_gt (adj : List (String × List String)) :
    (nodesU adj).length * (degTotal adj + 1) < scanFuel adj := by
  unfold scanFuel
  have h1 : (nodesU adj).length < (nodesU adj).length + 1 := Nat.lt_succ_self _
  exact Nat.mul_lt_mul_of_lt_of_le h1 (Nat.le_refl _) (Nat.succ_pos _)

theorem scanNodes_complete (adj : List (String × List String)) :
    ∀ (ks : List String) (vd : List String),
      scanNodes adj (scanFuel adj) ks [] vd = none →
      (∀ k ∈ ks, k ∈ nodesU adj) → VdInv adj [] vd →
      ∃ vd2, (∀ x ∈ vd, x ∈ vd2) ∧ (∀ k ∈ ks, k ∈ vd2) ∧ VdInv adj [] vd2 := by
  intro ks
  induction ks with
  | nil =>
    intro vd _ _ hinv
    exact ⟨vd, fun x hx => hx, by simp, hinv⟩
  | cons k2 ks ih =>
    intro vd h hks hinv
    simp only [scanNodes] at h
    rcases hD : dfs adj (scanFuel adj) k2 [] vd with ⟨b, vgc, vdc⟩
    rw [hD] at h
    cases b
    · have hre : vgc = [] := (dfs_restore adj (scanFuel adj)).1 _ _ _ _ _ hD
      subst hre
      have hc := (dfs_complete adj (scanFuel adj)).1 k2 [] vd [] vdc hD
        (by simpa using scanFuel_gt adj)
        (by simp) (by simp) (hks k2 (List.mem_cons_self k2 ks)) hinv
      obtain ⟨hmono, hk2, hinvc⟩ := hc
      obtain ⟨vd2, hmono2, hksmem, hinv2⟩ :=
        ih vdc h (fun x hx => hks x (List.mem_cons_of_mem k2 hx)) hinvc
      refine ⟨vd2, fun x hx => hmono2 x (hmono x hx), ?_, hinv2⟩
      intro x hx
      rcases List.mem_cons.mp hx with h1 | h1
      · rw [h1]; exact hmono2 k2 hk2
      · exact hksmem x h1
    · cases h

/-- Soundness of the cycle rule: a reported node means the graph has a cycle. -/
theorem cycleScan_hasCycle {adj : List (String × List String)} {n : String}
    (h : cycleScan adj = some n) : HasCycle adj :=
  scanNodes_sound adj (scanFuel adj) (pyKeys adj) [] n h

/-- Completeness of the cycle rule: a cyclic graph is always reported. -/
theorem hasCycle_cycleScan {adj : List (String × List String)}
    (h : HasCycle adj) : cycleScan adj ≠ none := by
  intro hnone
  obtain ⟨a, hcyc⟩ := h
  obtain ⟨vd2, -, hkeys, hinv2⟩ := scanNodes_complete adj (pyKeys adj) [] hnone
    (pyKeys_sub_nodesU adj) (by refine ⟨?_, ?_, ?_, ?_⟩ <;> simp [TopoVd])
  obtain ⟨-, hnd2, -, htopo2⟩ := hinv2
  obtain ⟨c, hedge⟩ := reachPlus_first_edge hcyc
  exact topo_no_cycle htopo2 hnd2 hcyc (hkeys a (edge_src_mem_keys hedge))

/-- The cycle rule fires exactly on cyclic dependency graphs. -/
theorem cycleScan_iff_hasCycle (adj : List (String × List String)) :
    (∃ n, cycleScan adj = some n) ↔ HasCycle adj := by
  constructor
  · rintro ⟨n, hn⟩; exact cycleScan_hasCycle hn
  · intro h
    rcases hs : cycleScan adj with - | n
    · exact absurd hs (hasCycle_cycleScan h)
    · exact ⟨n, rfl⟩

theorem dep_msg_ne_cycleMsg (dep : String) :
    ("Dependency " ++ dep ++ " not found") ≠ cycleMsg := by
  intro h
  have hd := congrArg String.data h
  have h1 : ("Dependency " ++ dep ++ " not found").data
      = 'D' :: ("ependency " ++ dep ++ " not found").data := rfl
  have h2 : cycleMsg.data = 'C' :: "ycle detected in dependencies".data := rfl
  rw [h1, h2] at hd
  cases hd

/-- `validate_plan` reports the cycle rule exactly as `cycleScan` does: one
error carrying the scan result, or none. -/
theorem cycleErrors_validate_plan (O : ValOracle) (p : Plan) (R : Registry) :
    cycleErrors (validate_plan O p R) =
      (match cycleScan (planAdj p.steps) with
       | some n => [mkError "INVALID_DEPENDENCY" cycleMsg (some n) (some "depends_on") none]
       | none => []) := by
  unfold cycleErrors validate_plan
  simp only [List.filter_append]
  have hschema : ∀ l : List ValidationError,
      (∀ e ∈ l, e.code ≠ "INVALID_DEPENDENCY") →
      l.filter (fun e => decide (e.code = "INVALID_DEPENDENCY" ∧ e.message = cycleMsg)) = [] := by
    intro l hl
    refine List.filter_eq_nil_iff.mpr ?_
    intro e he
    simp only [decide_eq_true_eq, not_and]
    intro hc
    exact absurd hc (hl e he)
  rw [hschema _ (by
    rcases O.planSchema p with - | ⟨m, pa⟩ <;> intro e he <;> simp [mkError] at he
    rw [he]
    simp)]
  rw [hschema _ (by
    by_cases hlim : p.steps.length > MAX_STEPS <;> intro e he <;> simp [hlim, mkError] at he
    rw [he]
    simp)]
  rw [hschema _ (by
    intro e he
    rw [List.mem_flatMap] at he
    obtain ⟨s, -, he⟩ := he
    by_cases hop : ¬ R.operations.any (fun op => op.op_id = s.op_id)
    · simp only [if_pos hop, List.mem_singleton] at he
      rw [he]
      simp [mkError]
    · simp only [if_neg hop] at he
      rcases hps : O.paramSchema s.op_id s.params with - | ⟨m, pa⟩ <;>
        rw [hps] at he <;> simp [mkError] at he
      rw [he]
      simp)]
  have hdep : (p.steps.flatMap (fun s =>
      s.depends_on.flatMap (fun dep =>
        (if dep ∉ p.steps.map (·.step_id) then
          [mkError "INVALID_DEPENDENCY" ("Dependency " ++ dep ++ " not found")
            (some s.step_id) (some "depends_on") none]
        else []) ++
        (if dep = s.step_id then
          [mkError "INVALID_DEPENDENCY" "Step cannot depend on itself"
            (some s.step_id) (some "depends_on") none]
        else [])))).filter
      (fun e => decide (e.code = "INVALID_DEPENDENCY" ∧ e.message = cycleMsg)) = [] := by
    refine List.filter_eq_nil_iff.mpr ?_
    intro e he
    rw [List.mem_flatMap] at he
    obtain ⟨s, -, he⟩ := he
    rw [List.mem_flatMap] at he
    obtain ⟨dep, -, he⟩ := he
    rw [List.mem_append] at he
    simp only [decide_eq_true_eq, not_and]
    intro _hcode
    rcases he with he | he
    · simp only [mkError, List.mem_ite_nil_right, List.mem_singleton] at he
      rw [he.2]
      exact dep_msg_ne_cycleMsg dep
    · simp only [mkError, List.mem_ite_nil_right, List.mem_singleton] at he
      rw [he.2]
      intro hx
      simp [cycleMsg] at hx
  rw [hdep]
  rcases hscan : cycleScan (planAdj p.steps) with - | n <;>
    simp [hscan, mkError, cycleMsg]

/-! ## Service-side lemmas -/

theorem consumeEvents_no_summary (sid : String) : ∀ evs : List ExecEvent,
    ∀ e ∈ (consumeEvents sid evs).1, e.type ≠ ExecutionEventType.RUN_SUMMARY := by
  intro evs
  induction evs with
  | nil => simp [consumeEvents]
  | cons ev rest ih =>
    simp only [consumeEvents]
    by_cases h1 : ev.type = ExecutionEventType.RUN_SUMMARY
    · rw [if_pos h1]; exact ih
    · rw [if_neg h1]
      by_cases h2 : ev.type = ExecutionEventType.STEP_FAILED ∧ ev.step_id = some sid
      · rw [if_pos h2]
        intro e he
        rw [List.mem_singleton] at he
        rw [he]; exact h1
      · rw [if_neg h2]
        intro e he
        rcases List.mem_cons.mp he with h3 | h3
        · rw [h3]; exact h1
        · exact ih e h3

theorem attemptLoop_no_summary (cfg : Cfg) (plan : Plan) (step : PlanStep) :
    ∀ (f : Nat) (retry : Bool) (st st2 : St) (c : Bool),
      attemptLoop cfg plan step f retry st = some (st2, c) →
      (∀ e ∈ st.exec_trace, e.type ≠ ExecutionEventType.RUN_SUMMARY) →
      (∀ e ∈ st2.exec_trace, e.type ≠ ExecutionEventType.RUN_SUMMARY) := by
  intro f
  induction f with
  | zero => intro retry st st2 c h; simp [attemptLoop] at h
  | succ f ih =>
    intro retry st st2 c h hst
    simp only [attemptLoop] at h
    have htr : ∀ e ∈ st.exec_trace ++ (consumeEvents step.step_id
        (cfg.C.execPlan (singleStepPlan cfg.toolKey plan step)
          (if retry ∧ cfg.userContext.isSome then some none else cfg.userContext)
          (if retry then none
           else if st.fail_on_step_id = some step.step_id then some step.step_id
           else none))).1, e.type ≠ ExecutionEventType.RUN_SUMMARY := by
      intro e he
      rcases List.mem_append.mp he with h1 | h1
      · exact hst e h1
      · exact consumeEvents_no_summary step.step_id _ e h1
    split at h
    · cases h
      exact htr
    · rename_i fe hfe
      split at h
      · cases h
      · rename_i d j hwd
        split at h
        · cases h; exact htr
        · split at h
          · exact ih true _ st2 c h htr
          · split at h
            · cases h; exact htr
            · split at h
              · cases h; exact htr
              · split at h
                · cases h; exact htr
                · cases h; exact htr

/-- The attempt loop only appends to the trace and never reads it: running it
from a truncated trace yields the same outcome with the prefix restored. -/
theorem attemptLoop_trace (cfg : Cfg) (plan : Plan) (step : PlanStep) :
    ∀ (f : Nat) (retry : Bool) (pi ui di : Nat) (conv : List String)
      (pdict : Option Plan) (skp : List String) (tr : List ExecEvent)
      (ab nr : Bool) (fo : Option String),
      attemptLoop cfg plan step f retry ⟨pi, ui, di, conv, pdict, skp, tr, ab, nr, fo⟩ =
        (attemptLoop cfg plan step f retry ⟨pi, ui, di, conv, pdict, skp, [], ab, nr, fo⟩).map
          (fun r => ({ r.1 with exec_trace := tr ++ r.1.exec_trace }, r.2)) := by
  intro f
  induction f with
  | zero => intro retry pi ui di conv pdict skp tr ab nr fo; simp [attemptLoop]
  | succ f ih =>
    intro retry pi ui di conv pdict skp tr ab nr fo
    simp only [attemptLoop]
    split
    · rename_i heq1
      simp only [heq1]
      simp
    · rename_i fe heq1
      simp only [heq1]
      split
      · rename_i heq2
        simp
      · rename_i d j heq2
        by_cases h1 : d = some "ABORT_RUN"
        · simp [h1]
        · simp only [if_neg h1]
          by_cases h2 : d = some "RETRY_STEP"
          · simp only [if_pos h2]
            conv_lhs => rw [ih]
            conv_rhs => rw [ih]
            simp [Option.map_map, Function.comp_def, List.append_assoc]
          · simp only [if_neg h2]
            by_cases h3 : d = some "SKIP_STEP"
            · simp [h3]
            · simp only [if_neg h3]
              by_cases h4 : d = some "SKIP_DEPENDENTS"
              · simp [h4]
              · simp only [if_neg h4]
                by_cases h5 : d = some "REPLAN"
                · simp [h5]
                · simp [if_neg h5]

theorem stepLoop_no_summary (cfg : Cfg) (plan : Plan) :
    ∀ (steps : List PlanStep) (st st2 : St),
      stepLoop cfg plan steps st = some st2 →
      (∀ e ∈ st.exec_trace, e.type ≠ ExecutionEventType.RUN_SUMMARY) →
      (∀ e ∈ st2.exec_trace, e.type ≠ ExecutionEventType.RUN_SUMMARY) := by
  intro steps
  induction steps with
  | nil =>
    intro st st2 h hst
    simp only [stepLoop, Option.some.injEq] at h
    rw [← h]; exact hst
  | cons step rest ih =>
    intro st st2 h hst
    simp only [stepLoop] at h
    split at h
    · cases h; exact hst
    · split at h
      · exact ih _ _ h hst
      · split at h
        · exact ih _ _ h hst
        · split at h
          · cases h
          · rename_i s2 c hA
            have hs2 := attemptLoop_no_summary cfg plan step cfg.aFuel false st s2 c hA hst
            split at h
            · cases h; exact hs2
            · split at h
              · exact ih _ _ h hs2
              · split at h
                · exact ih _ _ h hs2
                · exact ih _ _ h hs2

/-- The step walk only appends to the trace and never reads it. -/
theorem stepLoop_trace (cfg : Cfg) (plan : Plan) : ∀ (steps : List PlanStep)
    (pi ui di : Nat) (conv : List String) (pdict : Option Plan) (skp : List String)
    (tr : List ExecEvent) (ab nr : Bool) (fo : Option String),
    stepLoop cfg plan steps ⟨pi, ui, di, conv, pdict, skp, tr, ab, nr, fo⟩ =
      (stepLoop cfg plan steps ⟨pi, ui, di, conv, pdict, skp, [], ab, nr, fo⟩).map
        (fun s2 => { s2 with exec_trace := tr ++ s2.exec_trace }) := by
  intro steps
  induction steps with
  | nil => intro pi ui di conv pdict skp tr ab nr fo; simp [stepLoop]
  | cons step rest ih =>
    intro pi ui di conv pdict skp tr ab nr fo
    simp only [stepLoop]
    by_cases hab : ab = true
    · simp [hab]
    · simp only [if_neg hab]
      by_cases hmem : step.step_id ∈ skp
      · simp only [if_pos hmem]
        exact ih pi ui di conv pdict skp tr ab nr fo
      · simp only [if_neg hmem]
        by_cases hdep : ∃ d ∈ step.depends_on, d ∈ skp
        · simp only [if_pos hdep]
          exact ih pi ui di conv pdict (addSkip step.step_id skp) tr ab nr fo
        · simp only [if_neg hdep]
          conv_lhs => rw [attemptLoop_trace]
          rcases hA : attemptLoop cfg plan step cfg.aFuel false
              ⟨pi, ui, di, conv, pdict, skp, [], ab, nr, fo⟩ with - | ⟨s2, c⟩
          · simp
          · obtain ⟨pi2, ui2, di2, conv2, pdict2, skp2, tr2, ab2, nr2, fo2⟩ := s2
            simp only [Option.map_some']
            by_cases hor : ab2 = true ∨ nr2 = true
            · simp [hor]
            · simp only [hor, if_false]
              have hor2 : (ab2 ∨ nr2) = False := by
                simp only [eq_iff_iff, iff_false]
                intro hx
                rcases hx with hx | hx
                · exact hor (Or.inl hx)
                · exact hor (Or.inr hx)
              by_cases hmem2 : step.step_id ∈ skp2
              · simp only [if_pos hmem2]
                conv_lhs => rw [ih]
                conv_rhs => rw [ih]
                simp [Option.map_map, Function.comp_def, List.append_assoc]
              · simp only [if_neg hmem2]
                by_cases hc : c = true
                · simp only [if_pos hc]
                  conv_lhs => rw [ih]
                  conv_rhs => rw [ih]
                  simp [Option.map_map, Function.comp_def, List.append_assoc]
                · simp only [if_neg hc]
                  conv_lhs => rw [ih]
                  conv_rhs => rw [ih]
                  simp [Option.map_map, Function.comp_def, List.append_assoc]

theorem planningLoop_preserve (C : Collab) : ∀ (n : Nat) (st : St),
    (planningLoop C n st).dec_idx = st.dec_idx ∧
    (planningLoop C n st).skipped = st.skipped ∧
    (planningLoop C n st).exec_trace = st.exec_trace ∧
    (planningLoop C n st).aborted = st.aborted ∧
    (planningLoop C n st).need_replan = st.need_replan ∧
    (planningLoop C n st).fail_on_step_id = st.fail_on_step_id := by
  intro n
  induction n with
  | zero => intro st; simp [planningLoop]
  | succ n ih =>
    intro st
    simp only [planningLoop]
    cases C.planner st.planner_idx with
    | form t => exact ih _
    | plan p => simp
    | other t => exact ih _

/-- Changing only the execution trace commutes with the planning loop
(the loop neither reads nor writes the trace). -/
theorem planningLoop_state (C : Collab) : ∀ (n : Nat) (st : St) (tr : List ExecEvent),
    planningLoop C n { st with exec_trace := tr } =
      { planningLoop C n st with exec_trace := tr } := by
  intro n
  induction n with
  | zero => intro st tr; simp [planningLoop]
  | succ n ih =>
    intro st tr
    simp only [planningLoop]
    cases C.planner st.planner_idx with
    | form t =>
      exact ih { st with planner_idx := st.planner_idx + 1,
                         conversation := st.conversation ++ [C.userMsg st.user_idx],
                         user_idx := st.user_idx + 1 } tr
    | plan p => rfl
    | other t => exact ih { st with planner_idx := st.planner_idx + 1 } tr

/-- If the planner never yields a plan during the next `n` calls, the loop
leaves `plan_dict` untouched. -/
theorem planningLoop_no_plan (C : Collab) : ∀ (n : Nat) (st : St),
    (∀ i, i < n → ∀ p, C.planner (st.planner_idx + i) ≠ PlannerOutput.plan p) →
    st.plan_dict = none → (planningLoop C n st).plan_dict = none := by
  intro n
  induction n with
  | zero => intro st _ h0; simpa [planningLoop] using h0
  | succ n ih =>
    intro st hnp h0
    simp only [planningLoop]
    cases hp : C.planner st.planner_idx with
    | form t =>
      refine ih _ ?_ h0
      intro i hi p
      have := hnp (i + 1) (by omega) p
      simpa [Nat.add_assoc, Nat.add_comm 1 i] using this
    | plan p => exact absurd hp (hnp 0 (Nat.succ_pos n) p)
    | other t =>
      refine ih _ ?_ h0
      intro i hi p
      have := hnp (i + 1) (by omega) p
      simpa [Nat.add_assoc, Nat.add_comm 1 i] using this

theorem outerLoop_no_summary (cfg : Cfg) : ∀ (f : Nat) (p : Plan) (st : St)
    (fp : Plan) (stF : St),
    outerLoop cfg f p st = some (fp, stF) →
    (∀ e ∈ st.exec_trace, e.type ≠ ExecutionEventType.RUN_SUMMARY) →
    (∀ e ∈ stF.exec_trace, e.type ≠ ExecutionEventType.RUN_SUMMARY) := by
  intro f
  induction f with
  | zero => intro p st fp stF h; cases h
  | succ f ih =>
    intro p st fp stF h hst
    simp only [outerLoop] at h
    split at h
    · cases h
    · rename_i st1 hS
      have hst1 : ∀ e ∈ st1.exec_trace, e.type ≠ ExecutionEventType.RUN_SUMMARY :=
        stepLoop_no_summary cfg p p.steps _ st1 hS hst
      split at h
      · cases h; exact hst1
      · split at h
        · split at h
          · rename_i pd hpd
            split at h
            · exact ih pd _ fp stF h (by simp)
            · cases h
              simpa [(planningLoop_preserve cfg.C 10 st1).2.2.1] using hst1
          · cases h
            simpa [(planningLoop_preserve cfg.C 10 st1).2.2.1] using hst1
        · cases h; exact hst1

theorem finalStatus_ne_failed (st : St) : finalStatus st ≠ RunStatus.FAILED := by
  unfold finalStatus
  split <;> [skip; split] <;> simp

/-- Path inversion for `start_run`: either the run failed before execution
(empty trace, no archive), or it executed a walk and was finalized. -/
theorem start_run_inv (cfg : Cfg) (out : RunOutcome) (h : start_run cfg = some out) :
    (out.result.status = RunStatus.FAILED ∧ out.result.execution_trace = [] ∧
     out.archivePayload = none ∧ out.finalWalk = none) ∨
    (∃ planModel st3 fp stF,
      st3.exec_trace = [] ∧ st3.skipped = [] ∧ st3.aborted = false ∧
      st3.fail_on_step_id = cfg.userContext.join ∧
      outerLoop cfg cfg.oFuel planModel st3 = some (fp, stF) ∧
      out = finishRun cfg fp stF) := by
  simp only [start_run] at h
  split at h
  · cases h
    left
    simp
  · rename_i pd0 hpd0
    split at h
    · cases h
    · rename_i st2 errs1 r1 hcorr
      split at h
      · rename_i herrs
        split at h
        · cases h
        · rename_i fp stF houter
          cases h
          right
          exact ⟨st2.plan_dict.getD pd0, _, fp, stF, rfl, rfl, rfl, rfl, houter, rfl⟩
      · cases h
        left
        simp

/-! ## Claim theorems -/

/-- C1: for every run in which a plan was accepted and the step walk ended, the
terminal status returned by `start_run` is CANCELLED if the aborted flag is set;
otherwise PARTIAL if the skip-set is non-empty or the execution trace contains at
least one STEP_FAILED event; otherwise SUCCESS. -/
theorem c1_terminal_status (cfg : Cfg) (out : RunOutcome) (fp : Plan) (stF : St)
    (h : start_run cfg = some out) (hw : out.finalWalk = some (fp, stF)) :
    out.result.status =
      (if stF.aborted then RunStatus.CANCELLED
       else if stF.skipped ≠ [] ∨ ∃ e ∈ stF.exec_trace, e.type = ExecutionEventType.STEP_FAILED
       then RunStatus.PARTIAL else RunStatus.SUCCESS) := by
  rcases start_run_inv cfg out h with ⟨-, -, -, hfw⟩ | ⟨pm, st3, fp2, stF2, -, -, -, -, -, hout⟩
  · rw [hfw] at hw; cases hw
  · subst hout
    have hww : fp2 = fp ∧ stF2 = stF := by
      simpa [finishRun, Prod.ext_iff] using hw
    rw [← hww.2]
    have hcond : (stF2.skipped ≠ [] ∨
        stF2.exec_trace.any (fun e => e.type == ExecutionEventType.STEP_FAILED) = true) ↔
        (stF2.skipped ≠ [] ∨ ∃ e ∈ stF2.exec_trace, e.type = ExecutionEventType.STEP_FAILED) := by
      simp [List.any_eq_true]
    by_cases hab : stF2.aborted = true
    · simp [finishRun, finalStatus, hab]
    · by_cases hpart : stF2.skipped ≠ [] ∨
          ∃ e ∈ stF2.exec_trace, e.type = ExecutionEventType.STEP_FAILED
      · simp only [finishRun, finalStatus]
        rw [if_neg hab, if_pos (hcond.mpr hpart), if_neg hab, if_pos hpart]
      · simp only [finishRun, finalStatus]
        rw [if_neg hab, if_neg (fun hc => hpart (hcond.mp hc)), if_neg hab, if_neg hpart]

/-- C10: every `RunResult` returned by `start_run` has an empty execution trace
when its status is FAILED, and otherwise contains exactly one RUN_SUMMARY event,
as its last element. -/
theorem c10_trace_shape (cfg : Cfg) (out : RunOutcome) (h : start_run cfg = some out) :
    (out.result.status = RunStatus.FAILED → out.result.execution_trace = []) ∧
    (out.result.status ≠ RunStatus.FAILED →
      (out.result.execution_trace.filter
        (fun e => e.type == ExecutionEventType.RUN_SUMMARY)).length = 1 ∧
      ∃ e, out.result.execution_trace.getLast? = some e ∧
        e.type = ExecutionEventType.RUN_SUMMARY) := by
  rcases start_run_inv cfg out h with ⟨hs, htr, -, -⟩ |
    ⟨pm, st3, fp, stF, htr3, -, -, -, houter, hout⟩
  · exact ⟨fun _ => htr, fun hne => absurd hs hne⟩
  · subst hout
    have hfree : ∀ e ∈ stF.exec_trace, e.type ≠ ExecutionEventType.RUN_SUMMARY := by
      refine outerLoop_no_summary cfg cfg.oFuel pm st3 fp stF houter ?_
      rw [htr3]
      intro e he
      cases he
    constructor
    · intro hf
      exact absurd hf (by simpa [finishRun] using finalStatus_ne_failed stF)
    · intro _hne
      have hsplit : ∃ ev : ExecEvent, (finishRun cfg fp stF).result.execution_trace =
          stF.exec_trace ++ [ev] ∧ ev.type = ExecutionEventType.RUN_SUMMARY := by
        refine ⟨({ type := ExecutionEventType.RUN_SUMMARY,
                   message := some ("Run completed with status " ++ statusStr (finalStatus stF)),
                   output := some (EventOutput.summary (finalStatus stF)
                     (sortStrings stF.skipped) fp.steps.length) } : ExecEvent), ?_, rfl⟩
        simp [finishRun]
      obtain ⟨ev, hsp, hevt⟩ := hsplit
      rw [hsp]
      constructor
      · rw [List.filter_append]
        have h1 : stF.exec_trace.filter
            (fun e => e.type == ExecutionEventType.RUN_SUMMARY) = [] := by
          refine List.filter_eq_nil_iff.mpr ?_
          intro e he
          simpa using hfree e he
        rw [h1]
        simp [hevt]
      · refine ⟨ev, ?_, hevt⟩
        rw [List.getLast?_concat]

/-- C6: if the planner yields no plan in the 10 turns of the initial planning
loop, `start_run` returns FAILED with exactly one PLANNING_TIMEOUT envelope of
severity RUN, not retryable. -/
theorem c6_planning_timeout (cfg : Cfg)
    (hp : ∀ i, i < 10 → ∀ q, cfg.C.planner i ≠ PlannerOutput.plan q) :
    start_run cfg = some
      { result :=
        { run_id := cfg.runId, status := RunStatus.FAILED, tool_key := cfg.toolKey
          intent := cfg.intent, pre_state := cfg.C.fetchState 0
          errors := [planningTimeoutError] } } ∧
    planningTimeoutError.code = "PLANNING_TIMEOUT" ∧
    planningTimeoutError.severity = ErrorSeverity.RUN ∧
    planningTimeoutError.retryable = false := by
  refine ⟨?_, rfl, rfl, rfl⟩
  have hnone : (planningLoop cfg.C 10 {}).plan_dict = none := by
    refine planningLoop_no_plan cfg.C 10 {} ?_ rfl
    intro i hi p
    simpa using hp i (by simpa using hi) p
  simp only [start_run]
  rw [hnone]

/-- C7: plan auto-correction is bounded to 3 corrected-plan attempts; if
validation errors remain, `start_run` fails with one envelope per remaining
error, severity STEP when the error references a (non-empty) step id and RUN
otherwise. -/
theorem c7_correction_bound (cfg : Cfg) :
    (∀ fuel st errs r st2 errs2 r2,
      correctionLoop cfg fuel st errs r = some (st2, errs2, r2) → r ≤ 3 → r2 ≤ 3) ∧
    (∀ pd0 st2 errs1 r1,
      (planningLoop cfg.C 10 {}).plan_dict = some pd0 →
      correctionLoop cfg cfg.cFuel (planningLoop cfg.C 10 {})
        (validate_plan cfg.O pd0 cfg.registry) 0 = some (st2, errs1, r1) →
      errs1 ≠ [] →
      start_run cfg = some
        { result :=
          { run_id := cfg.runId, status := RunStatus.FAILED, tool_key := cfg.toolKey
            intent := cfg.intent, pre_state := cfg.C.fetchState 0
            errors := errs1.map valErrToEnvelope } }) ∧
    (∀ err : ValidationError, (valErrToEnvelope err).severity =
      if pyTruthy err.step_id then ErrorSeverity.STEP else ErrorSeverity.RUN) := by
  refine ⟨?_, ?_, fun err => rfl⟩
  · intro fuel
    induction fuel with
    | zero =>
      intro st errs r st2 errs2 r2 h hr
      simp only [correctionLoop] at h
      split at h
      · simp only [Option.some.injEq, Prod.mk.injEq] at h
        omega
      · cases h
    | succ fuel ih =>
      intro st errs r st2 errs2 r2 h hr
      simp only [correctionLoop] at h
      split at h
      · simp only [Option.some.injEq, Prod.mk.injEq] at h
        omega
      · rename_i hcond
        split at h
        · exact ih _ _ _ _ _ _ h hr
        · refine ih _ _ _ _ _ _ h ?_
          have : r < 3 := by
            by_contra hge
            exact hcond (Or.inr hge)
          omega
        · simp only [Option.some.injEq, Prod.mk.injEq] at h
          omega
  · intro pd0 st2 errs1 r1 hpd hcorr herrs
    simp only [start_run]
    simp only [hpd]
    rw [hcorr]
    simp [herrs]

/-- C9: an `ABORT_RUN` decision sets the aborted flag and ends the attempt loop;
an aborted walk is finalized with status CANCELLED, the post-run snapshot is
still fetched from the executor, and archiving is still attempted. -/
theorem c9_abort_effects (cfg : Cfg) :
    (∀ out fp stF, start_run cfg = some out → out.finalWalk = some (fp, stF) →
      stF.aborted = true →
      out.result.status = RunStatus.CANCELLED ∧
      out.result.post_state = cfg.C.fetchState 1 ∧
      out.archivePayload.isSome = true) ∧
    (∀ (plan : Plan) (step : PlanStep) (f : Nat) (retry : Bool) (st : St)
       (fe : ExecEvent) (j : Nat),
      (consumeEvents step.step_id (cfg.C.execPlan (singleStepPlan cfg.toolKey plan step)
        (if retry ∧ cfg.userContext.isSome then some none else cfg.userContext)
        (if retry then none
         else if st.fail_on_step_id = some step.step_id then some step.step_id
         else none))).2.1 = some fe →
      waitDecision cfg.C cfg.runId fe.step_id cfg.dFuel st.dec_idx =
        some (some "ABORT_RUN", j) →
      attemptLoop cfg plan step (f + 1) retry st =
        some ({ st with
          exec_trace := st.exec_trace ++
            (consumeEvents step.step_id (cfg.C.execPlan (singleStepPlan cfg.toolKey plan step)
              (if retry ∧ cfg.userContext.isSome then some none else cfg.userContext)
              (if retry then none
               else if st.fail_on_step_id = some step.step_id then some step.step_id
               else none))).1
          dec_idx := j
          aborted := true }, false)) := by
  constructor
  · intro out fp stF h hw hab
    rcases start_run_inv cfg out h with ⟨-, -, -, hfw⟩ |
      ⟨pm, st3, fp2, stF2, -, -, -, -, -, hout⟩
    · rw [hfw] at hw; cases hw
    · subst hout
      have hww : fp2 = fp ∧ stF2 = stF := by
        simpa [finishRun, Prod.ext_iff] using hw
      have hab2 : stF2.aborted = true := by rw [hww.2]; exact hab
      refine ⟨?_, rfl, rfl⟩
      simp [finishRun, finalStatus, hab2]
  · intro plan step f retry st fe j hfe hwd
    simp only [attemptLoop]
    simp only [hfe]
    rw [hwd]
    simp

/-- C3 (amended): the decision wait returns the first queue item that is either
a non-dict or a dict matching the current run and failed step; every earlier
item is a non-matching dict, and those items are consumed (the next read starts
after the accepted item). -/
theorem c3_decision_wait (C : Collab) (runId : String) (fsid : Option String) :
    ∀ (f i : Nat) (d : Option String) (j : Nat),
      waitDecision C runId fsid f i = some (d, j) →
      i < j ∧
      (∀ k, i ≤ k → k + 1 < j →
        ∃ r s dd, C.decision k = DecisionResponse.dict r s dd ∧
          ¬(r = some runId ∧ s = fsid)) ∧
      (match C.decision (j - 1) with
       | DecisionResponse.dict r s dd => r = some runId ∧ s = fsid ∧ dd = d
       | DecisionResponse.raw dd => d = some dd) := by
  intro f
  induction f with
  | zero => intro i d j h; cases h
  | succ f ih =>
    intro i d j h
    simp only [waitDecision] at h
    split at h
    · rename_i r0 s0 d0 heq
      split at h
      · rename_i hcond
        simp only [Option.some.injEq, Prod.mk.injEq] at h
        obtain ⟨hd, hj⟩ := h
        subst hd; subst hj
        refine ⟨Nat.lt_succ_self i, ?_, ?_⟩
        · intro k hk1 hk2; omega
        · simp only [Nat.add_sub_cancel]
          rw [heq]
          exact ⟨hcond.1, hcond.2, rfl⟩
      · rename_i hcond
        obtain ⟨hlt, hmid, hlast⟩ := ih (i + 1) d j h
        refine ⟨by omega, ?_, hlast⟩
        intro k hk1 hk2
        rcases Nat.eq_or_lt_of_le hk1 with hk | hk
        · subst hk
          exact ⟨r0, s0, d0, heq, hcond⟩
        · exact hmid k hk hk2
    · rename_i d0 heq
      simp only [Option.some.injEq, Prod.mk.injEq] at h
      obtain ⟨hd, hj⟩ := h
      subst hd; subst hj
      refine ⟨Nat.lt_succ_self i, ?_, ?_⟩
      · intro k hk1 hk2; omega
      · simp only [Nat.add_sub_cancel]
        rw [heq]

/-- C3 counterexample: with a decision for (R, S2) queued first, a wait for
(R, S1) passes over and discards it; a later wait for (R, S2) receives the
third queue item, not the still-pending first one. -/
theorem c3_counterexample :
    waitDecision collab3 "R" (some "S1") 5 0 = some (some "RETRY_STEP", 2) ∧
    waitDecision collab3 "R" (some "S2") 5 2 = some (some "ABORT_RUN", 3) ∧
    collab3.decision 0 = DecisionResponse.dict (some "R") (some "S2") (some "SKIP_STEP") ∧
    (some "ABORT_RUN" : Option String) ≠ some "SKIP_STEP" := by
  refine ⟨by decide, by decide, by decide, by decide⟩

/-- C4 (amended): the cycle rule of `validate_plan` reports exactly one
INVALID_DEPENDENCY cycle error when the dependency graph has a cycle — carrying
the node from which the detecting depth-first traversal was started — and no
cycle error when the graph is acyclic. -/
theorem c4_cycle_rule (O : ValOracle) (p : Plan) (R : Registry) :
    (HasCycle (planAdj p.steps) →
      ∃ n, cycleScan (planAdj p.steps) = some n ∧
        cycleErrors (validate_plan O p R) =
          [mkError "INVALID_DEPENDENCY" cycleMsg (some n) (some "depends_on") none]) ∧
    (¬ HasCycle (planAdj p.steps) → cycleErrors (validate_plan O p R) = []) := by
  constructor
  · intro hc
    obtain ⟨n, hn⟩ := (cycleScan_iff_hasCycle (planAdj p.steps)).mpr hc
    refine ⟨n, hn, ?_⟩
    rw [cycleErrors_validate_plan, hn]
  · intro hnc
    rw [cycleErrors_validate_plan]
    rcases hs : cycleScan (planAdj p.steps) with - | n
    · rfl
    · exact absurd (cycleScan_hasCycle hs) hnc

/-- C4 counterexample: on the plan A→B→C→B the cycle runs through B and C, but
the single cycle error carries step_id A — the traversal root — although A lies
on no cycle, so the reported node is not the node being visited when the cycle
is closed (any such node lies on the closed cycle). -/
theorem c4_counterexample :
    (cycleErrors (validate_plan OW planCyc regW)).map (·.step_id) = [some "A"] ∧
    ReachPlus (planAdj planCyc.steps) "B" "B" ∧
    ¬ ReachPlus (planAdj planCyc.steps) "A" "A" := by
  refine ⟨by decide, ?_, ?_⟩
  · exact ReachPlus.head (b := "C") (by decide) (ReachPlus.single (by decide))
  · intro h
    obtain ⟨x, hx⟩ := reachPlus_last_edge h
    have hk : x ∈ (planAdj planCyc.steps).map (·.1) :=
      mem_pyKeys.mp (edge_src_mem_keys hx)
    have : x = "A" ∨ x = "B" ∨ x = "C" := by
      simpa [planAdj, planCyc, stepW] using hk
    rcases this with h1 | h1 | h1 <;> subst h1 <;> exact absurd hx (by decide)

/-- Fully applied form of the planning-loop frame lemma. -/
theorem planningLoop_state_d (C : Collab) (n : Nat) (ap bu cd : Nat)
    (dc : List String) (ep : Option Plan) (fs : List String)
    (tr gt : List ExecEvent) (ha ir : Bool) (jf : Option String) :
    planningLoop C n ⟨ap, bu, cd, dc, ep, fs, tr ++ gt, ha, ir, jf⟩ =
      { planningLoop C n ⟨ap, bu, cd, dc, ep, fs, gt, ha, ir, jf⟩ with
        exec_trace := tr ++ gt } := by
  simpa using planningLoop_state C n ⟨ap, bu, cd, dc, ep, fs, gt, ha, ir, jf⟩
    (tr ++ gt)

/-- C8: when a REPLAN decision leads to a new valid plan, the walk restarts from
the new plan with the skip-set and execution trace cleared, and the outcome does
not depend on the trace accumulated by the abandoned attempt. -/
theorem c8_replan_discards (cfg : Cfg) (f : Nat) (p pd : Plan)
    (pi ui di : Nat) (conv : List String) (pdict : Option Plan) (skp : List String)
    (tr0 : List ExecEvent) (ab nr : Bool) (fo : Option String) (st1 : St)
    (h1 : stepLoop cfg p p.steps ⟨pi, ui, di, conv, pdict, skp, tr0, ab, false, fo⟩ =
      some st1)
    (h2 : st1.aborted = false) (h3 : st1.need_replan = true)
    (h4 : (planningLoop cfg.C 10 st1).plan_dict = some pd)
    (h5 : validate_plan cfg.O pd cfg.registry = []) :
    outerLoop cfg (f + 1) p ⟨pi, ui, di, conv, pdict, skp, tr0, ab, nr, fo⟩ =
      outerLoop cfg f pd
        { planningLoop cfg.C 10 st1 with skipped := [], exec_trace := [] } ∧
    ∀ tr, outerLoop cfg (f + 1) p ⟨pi, ui, di, conv, pdict, skp, tr, ab, nr, fo⟩ =
      outerLoop cfg f pd
        { planningLoop cfg.C 10 st1 with skipped := [], exec_trace := [] } := by
  -- decompose the walk through the trace-framing lemma
  rcases hc : stepLoop cfg p p.steps ⟨pi, ui, di, conv, pdict, skp, [], ab, false, fo⟩
    with - | s1
  · rw [stepLoop_trace, hc] at h1
    cases h1
  · rw [stepLoop_trace, hc] at h1
    simp only [Option.map_some', Option.some.injEq] at h1
    subst h1
    obtain ⟨ap, bu, cd, dc, ep, fs, gt, ha, ir, jf⟩ := s1
    simp only at h2 h3
    subst h2
    subst h3
    simp only at h4
    simp [planningLoop_state_d] at h4
    have hgen : ∀ tr,
        outerLoop cfg (f + 1) p ⟨pi, ui, di, conv, pdict, skp, tr, ab, nr, fo⟩ =
        outerLoop cfg f pd
          { planningLoop cfg.C 10 ⟨ap, bu, cd, dc, ep, fs, tr0 ++ gt, false, true, jf⟩
            with skipped := [], exec_trace := [] } := by
      intro tr
      have hstep : stepLoop cfg p p.steps
          ⟨pi, ui, di, conv, pdict, skp, tr, ab, false, fo⟩ =
          some ⟨ap, bu, cd, dc, ep, fs, tr ++ gt, false, true, jf⟩ := by
        rw [stepLoop_trace, hc]
        rfl
      simp [outerLoop, hstep, planningLoop_state_d, h4, h5]
    exact ⟨hgen tr0, hgen⟩
/-- Consuming the mock events of a clean single-step sub-plan. -/
theorem consume_mock_done (toolKey : String) (plan : Plan) (s : PlanStep)
    (uc : Option (Option String)) :
    consumeEvents s.step_id
      (mock_execute_plan (singleStepPlan toolKey plan s) uc none) =
      ([startedEv s, logEv s, doneEv s], none, true) := by
  simp [consumeEvents, mock_execute_plan, mockStepEvents, singleStepPlan,
    startedEv, logEv, doneEv]

/-- Consuming the mock events of a single-step sub-plan whose step is the fault
target. -/
theorem consume_mock_fail (toolKey : String) (plan : Plan) (s : PlanStep)
    (uc : Option (Option String)) :
    consumeEvents s.step_id
      (mock_execute_plan (singleStepPlan toolKey plan s) uc (some s.step_id)) =
      ([startedEv s, logEv s, failedEv s], some (failedEv s), false) := by
  simp [consumeEvents, mock_execute_plan, mockStepEvents, singleStepPlan,
    startedEv, logEv, failedEv]

/-- A first attempt at a step that is not the fault target succeeds and emits
exactly the three mock events. -/
theorem attemptLoop_clean (cfg : Cfg) (plan : Plan) (s : PlanStep) (f : Nat)
    (st : St) (hmock : cfg.C.execPlan = mock_execute_plan)
    (hfail : ¬ st.fail_on_step_id = some s.step_id) :
    attemptLoop cfg plan s (f + 1) false st =
      some ({ st with
        exec_trace := st.exec_trace ++ [startedEv s, logEv s, doneEv s] }, true) := by
  conv_lhs => simp only [attemptLoop]
  rw [hmock]
  simp [hfail, consume_mock_done]

/-- A first attempt at the fault target fails, and a RETRY_STEP decision loops
with the retry flag set, keeping the three failure events in the trace. -/
theorem attemptLoop_fail_retry (cfg : Cfg) (plan : Plan) (s : PlanStep) (f j : Nat)
    (st : St) (hmock : cfg.C.execPlan = mock_execute_plan)
    (hfail : st.fail_on_step_id = some s.step_id)
    (hwd : waitDecision cfg.C cfg.runId (some s.step_id) cfg.dFuel st.dec_idx =
      some (some "RETRY_STEP", j)) :
    attemptLoop cfg plan s (f + 1) false st =
      attemptLoop cfg plan s f true
        { st with
          exec_trace := st.exec_trace ++ [startedEv s, logEv s, failedEv s]
          dec_idx := j } := by
  conv_lhs => simp only [attemptLoop]
  rw [hmock]
  simp [hfail, consume_mock_fail, failedEv, hwd]

/-- A retry attempt under the mock executor always succeeds (the fault target is
popped from the context copy and the executor is re-run without it). -/
theorem attemptLoop_retry_ok (cfg : Cfg) (plan : Plan) (s : PlanStep) (f : Nat)
    (st : St) (hmock : cfg.C.execPlan = mock_execute_plan) :
    attemptLoop cfg plan s (f + 1) true st =
      some ({ st with
        exec_trace := st.exec_trace ++ [startedEv s, logEv s, doneEv s] }, true) := by
  conv_lhs => simp only [attemptLoop]
  rw [hmock]
  simp [consume_mock_done]

/-- A clean walk starting from an empty skip-set skips nothing. -/
theorem cleanWalkSim_nil : ∀ steps : List PlanStep, (cleanWalkSim steps []).1 = [] := by
  intro steps
  induction steps with
  | nil => rfl
  | cons s rest ih => simp [cleanWalkSim, ih]

/-- With the mock executor and no fault target, the walk is exactly the clean
walk simulation: the cascade adds dependents of already-skipped steps and every
other step emits START/LOG/DONE. -/
theorem stepLoop_clean (cfg : Cfg) (plan : Plan)
    (hmock : cfg.C.execPlan = mock_execute_plan) (haf : 0 < cfg.aFuel) :
    ∀ (steps : List PlanStep) (st : St),
      st.aborted = false → st.need_replan = false → st.fail_on_step_id = none →
      stepLoop cfg plan steps st =
        some { st with
          skipped := (cleanWalkSim steps st.skipped).1
          exec_trace := st.exec_trace ++ (cleanWalkSim steps st.skipped).2 } := by
  intro steps
  induction steps with
  | nil => intro st h1 h2 h3; simp [stepLoop, cleanWalkSim]
  | cons s rest ih =>
    intro st h1 h2 h3
    obtain ⟨A, B, C0, D, E, F, G, H, I, J⟩ := st
    simp only at h1 h2 h3
    subst h1
    subst h2
    subst h3
    by_cases hmem : s.step_id ∈ F
    · simp [stepLoop, hmem, cleanWalkSim, ih]
    · by_cases hdep : ∃ d ∈ s.depends_on, d ∈ F
      · simp [stepLoop, hmem, hdep, cleanWalkSim, ih, addSkip]
      · obtain ⟨a, ha⟩ : ∃ a, cfg.aFuel = a + 1 := ⟨cfg.aFuel - 1, by omega⟩
        simp [stepLoop, hmem, hdep, cleanWalkSim, ha, ih,
          attemptLoop_clean cfg plan s a ⟨A, B, C0, D, E, F, G, false, false, none⟩
            hmock (by simp),
          startedEv, logEv, doneEv, List.append_assoc]
/-- C2 counterexample: in the retry scenario (one-step plan, fault on S1, one
RETRY_STEP decision) the run completes, but with status PARTIAL rather than
SUCCESS: the first attempt's STEP_FAILED event remains in the execution trace. -/
theorem c2_counterexample :
    (start_run cfgRetry).map (fun o => o.result.status) = some RunStatus.PARTIAL ∧
    (start_run cfgRetry).map
        (fun o => o.result.execution_trace.map (fun e => e.type)) =
      some [ExecutionEventType.STEP_STARTED, ExecutionEventType.STEP_LOG,
        ExecutionEventType.STEP_FAILED, ExecutionEventType.STEP_STARTED,
        ExecutionEventType.STEP_LOG, ExecutionEventType.STEP_DONE,
        ExecutionEventType.RUN_SUMMARY] ∧
    RunStatus.PARTIAL ≠ RunStatus.SUCCESS := by
  refine ⟨by decide, by decide, by decide⟩

/-- C2 (amended): a RETRY_STEP decision re-executes the failed step without
advancing the walk — under the mock executor the retry pops the fault target
from the context copy and succeeds, so the step's events appear twice and the
remaining steps run clean — and the run completes with status PARTIAL, not
SUCCESS, because the first attempt's STEP_FAILED event remains in the trace. -/
theorem c2_retry (cfg : Cfg) (p : Plan) (s0 : PlanStep) (rest : List PlanStep)
    (j : Nat)
    (hsteps : p.steps = s0 :: rest)
    (hplanner : cfg.C.planner 0 = PlannerOutput.plan p)
    (hvalid : validate_plan cfg.O p cfg.registry = [])
    (hmock : cfg.C.execPlan = mock_execute_plan)
    (huc : cfg.userContext.join = some s0.step_id)
    (hwd : waitDecision cfg.C cfg.runId (some s0.step_id) cfg.dFuel 0 =
      some (some "RETRY_STEP", j))
    (haf : 2 ≤ cfg.aFuel) (hof : 0 < cfg.oFuel) :
    ∃ out, start_run cfg = some out ∧
      out.result.status = RunStatus.PARTIAL ∧
      out.result.execution_trace =
        ([startedEv s0, logEv s0, failedEv s0, startedEv s0, logEv s0, doneEv s0] ++
          (cleanWalkSim rest []).2) ++
        [{ type := ExecutionEventType.RUN_SUMMARY
           message := some ("Run completed with status " ++ statusStr RunStatus.PARTIAL)
           output := some (EventOutput.summary RunStatus.PARTIAL []
             p.steps.length) }] := by
  obtain ⟨a, ha⟩ : ∃ a, cfg.aFuel = a + 1 + 1 := ⟨cfg.aFuel - 2, by omega⟩
  obtain ⟨g, hg⟩ : ∃ g, cfg.oFuel = g + 1 := ⟨cfg.oFuel - 1, by omega⟩
  have hplan : planningLoop cfg.C 10 ({} : St) =
      ⟨1, 0, 0, [], some p, [], [], false, false, none⟩ := by
    rw [show (10 : Nat) = 9 + 1 from rfl]
    simp [planningLoop, hplanner]
  have hattempt : attemptLoop cfg p s0 (a + 1 + 1) false
      (⟨1, 0, 0, [], some p, [], [], false, false, some s0.step_id⟩ : St) =
      some (⟨1, 0, j, [], some p, [],
        [startedEv s0, logEv s0, failedEv s0, startedEv s0, logEv s0, doneEv s0],
        false, false, some s0.step_id⟩, true) := by
    rw [attemptLoop_fail_retry cfg p s0 (a + 1) j _ hmock rfl hwd,
      attemptLoop_retry_ok cfg p s0 a _ hmock]
    simp
  have hstep : stepLoop cfg p (s0 :: rest)
      (⟨1, 0, 0, [], some p, [], [], false, false, some s0.step_id⟩ : St) =
      some (⟨1, 0, j, [], some p, [],
        [startedEv s0, logEv s0, failedEv s0, startedEv s0, logEv s0, doneEv s0] ++
          (cleanWalkSim rest []).2, false, false, none⟩ : St) := by
    simp [stepLoop, ha, hattempt, cleanWalkSim_nil,
      stepLoop_clean cfg p hmock (by omega) rest
        ⟨1, 0, j, [], some p, [],
          [startedEv s0, logEv s0, failedEv s0, startedEv s0, logEv s0, doneEv s0],
          false, false, none⟩ rfl rfl rfl]
  have houter : outerLoop cfg (g + 1) p
      (⟨1, 0, 0, [], some p, [], [], false, false, some s0.step_id⟩ : St) =
      some (p, ⟨1, 0, j, [], some p, [],
        [startedEv s0, logEv s0, failedEv s0, startedEv s0, logEv s0, doneEv s0] ++
          (cleanWalkSim rest []).2, false, false, none⟩) := by
    simp [outerLoop, hsteps, hstep]
  have hcorr : correctionLoop cfg cfg.cFuel
      (⟨1, 0, 0, [], some p, [], [], false, false, none⟩ : St)
      (validate_plan cfg.O p cfg.registry) 0 =
      some (⟨1, 0, 0, [], some p, [], [], false, false, none⟩, [], 0) := by
    rw [hvalid, correctionLoop.eq_def]
    simp
  have hrun : start_run cfg =
      some (finishRun cfg p ⟨1, 0, j, [], some p, [],
        [startedEv s0, logEv s0, failedEv s0, startedEv s0, logEv s0, doneEv s0] ++
          (cleanWalkSim rest []).2, false, false, none⟩) := by
    have huc2 : (cfg.userContext.bind fun a => a) = some s0.step_id := huc
    simp only [start_run, hplan]
    simp only [hcorr]
    simp [huc2, hg, houter]
  refine ⟨_, hrun, ?_, ?_⟩
  · simp [finishRun, finalStatus, startedEv, logEv, failedEv]
  · simp [finishRun, finalStatus, startedEv, logEv, failedEv, sortStrings]

/-- Membership in `addSkip`. -/
theorem mem_addSkip (z y : String) (l : List String) :
    y ∈ addSkip z l ↔ y = z ∨ y ∈ l := by
  unfold addSkip
  by_cases h : z ∈ l
  · simp only [if_pos h]
    constructor
    · exact Or.inr
    · rintro (rfl | hy)
      · exact h
      · exact hy
  · simp [if_neg h, or_comm]

/-- Membership in the `SKIP_DEPENDENTS` fold over the plan steps. -/
theorem mem_addDependents_aux (x y : String) :
    ∀ (steps : List PlanStep) (acc : List String),
      y ∈ steps.foldl
        (fun acc s => if x ∈ s.depends_on then addSkip s.step_id acc else acc) acc ↔
      y ∈ acc ∨ ∃ s ∈ steps, s.step_id = y ∧ x ∈ s.depends_on := by
  intro steps
  induction steps with
  | nil => intro acc; simp
  | cons s rest ih =>
    intro acc
    simp only [List.foldl_cons, ih, List.exists_mem_cons_iff]
    by_cases h : x ∈ s.depends_on
    · simp only [if_pos h, mem_addSkip]
      constructor
      · rintro ((rfl | hy) | hr)
        · exact Or.inr (Or.inl ⟨rfl, h⟩)
        · exact Or.inl hy
        · exact Or.inr (Or.inr hr)
      · rintro (hy | ⟨rfl, -⟩ | hr)
        · exact Or.inl (Or.inr hy)
        · exact Or.inl (Or.inl rfl)
        · exact Or.inr hr
    · simp only [if_neg h]
      constructor
      · rintro (hy | hr)
        · exact Or.inl hy
        · exact Or.inr (Or.inr hr)
      · rintro (hy | ⟨rfl, hx⟩ | hr)
        · exact Or.inl hy
        · exact absurd hx h
        · exact Or.inr hr

/-- Membership in `addDependents` from an empty skip-set: the failed step itself
and every step that lists it as a direct dependency. -/
theorem mem_addDependents (plan : Plan) (x y : String) :
    y ∈ addDependents plan x [] ↔ y = x ∨ RevEdge plan.steps x y := by
  unfold addDependents RevEdge
  rw [mem_addDependents_aux]
  simp [addSkip, and_comm]

/-- Every dependency chain ends in a last reverse edge. -/
theorem dependent_last {steps : List PlanStep} {x y : String}
    (h : Dependent steps x y) :
    ∃ d, (d = x ∨ Dependent steps x d) ∧ RevEdge steps d y := by
  cases h with
  | single h => exact ⟨x, Or.inl rfl, h⟩
  | tail h1 h2 => exact ⟨_, Or.inr h1, h2⟩

/-- The clean-walk skip-set only grows. -/
theorem cleanWalkSim_mono :
    ∀ (steps : List PlanStep) (acc : List String) (y : String),
      y ∈ acc → y ∈ (cleanWalkSim steps acc).1 := by
  intro steps
  induction steps with
  | nil => intro acc y hy; simpa [cleanWalkSim] using hy
  | cons s rest ih =>
    intro acc y hy
    by_cases hmem : s.step_id ∈ acc
    · simpa [cleanWalkSim, hmem] using ih acc y hy
    · by_cases hdep : ∃ d ∈ s.depends_on, d ∈ acc
      · simpa [cleanWalkSim, hmem, hdep] using
          ih (acc ++ [s.step_id]) y (List.mem_append_left _ hy)
      · simpa [cleanWalkSim, hmem, hdep] using ih acc y hy

/-- Closure of the skip-set along a clean walk: when every dependency refers to
an already-declared step, the final skip-set is exactly the start set together
with the declared-later steps transitively dependent on the failed step. -/
theorem cleanWalkSim_closure (steps0 : List PlanStep) (x : String)
    (hnodup : (steps0.map (fun s => s.step_id)).Nodup) :
    ∀ (steps : List PlanStep) (seen acc : List String),
      DepsBefore seen steps →
      (∀ s ∈ steps, s ∈ steps0) →
      x ∈ acc →
      (∀ y ∈ acc, y = x ∨ Dependent steps0 x y) →
      (∀ d ∈ seen, (d = x ∨ Dependent steps0 x d) → d ∈ acc) →
      ∀ y, y ∈ (cleanWalkSim steps acc).1 ↔
        y ∈ acc ∨ ∃ s ∈ steps, s.step_id = y ∧ Dependent steps0 x y := by
  intro steps
  induction steps with
  | nil => intro seen acc _ _ _ _ _ y; simp [cleanWalkSim]
  | cons s rest ih =>
    intro seen acc hdb hsub hx hsound hseen y
    simp only [DepsBefore] at hdb
    obtain ⟨hdb1, hdb2⟩ := hdb
    have hsub2 : ∀ t ∈ rest, t ∈ steps0 := fun t ht => hsub t (List.mem_cons_of_mem s ht)
    have hsmem : s ∈ steps0 := hsub s (List.mem_cons_self s rest)
    by_cases hmem : s.step_id ∈ acc
    · rw [show (cleanWalkSim (s :: rest) acc).1 = (cleanWalkSim rest acc).1 from by
        simp [cleanWalkSim, hmem]]
      have hseen2 : ∀ d ∈ s.step_id :: seen,
          (d = x ∨ Dependent steps0 x d) → d ∈ acc := by
        intro d hd hdx
        rcases List.mem_cons.mp hd with rfl | hd2
        · exact hmem
        · exact hseen d hd2 hdx
      rw [ih (s.step_id :: seen) acc hdb2 hsub2 hx hsound hseen2 y]
      rw [List.exists_mem_cons_iff]
      constructor
      · rintro (hy | hr)
        · exact Or.inl hy
        · exact Or.inr (Or.inr hr)
      · rintro (hy | ⟨heq, hdep⟩ | hr)
        · exact Or.inl hy
        · exact Or.inl (heq ▸ hmem)
        · exact Or.inr hr
    · by_cases hdep : ∃ d ∈ s.depends_on, d ∈ acc
      · have hDs : Dependent steps0 x s.step_id := by
          obtain ⟨d, hd1, hd2⟩ := hdep
          rcases hsound d hd2 with rfl | h
          · exact Dependent.single ⟨s, hsmem, rfl, hd1⟩
          · exact Dependent.tail h ⟨s, hsmem, rfl, hd1⟩
        rw [show (cleanWalkSim (s :: rest) acc).1 =
            (cleanWalkSim rest (acc ++ [s.step_id])).1 from by
          simp [cleanWalkSim, hmem, hdep]]
        have hsound2 : ∀ z ∈ acc ++ [s.step_id],
            z = x ∨ Dependent steps0 x z := by
          intro z hz
          rcases List.mem_append.mp hz with hz | hz
          · exact hsound z hz
          · rw [List.mem_singleton.mp hz]
            exact Or.inr hDs
        have hseen2 : ∀ d ∈ s.step_id :: seen,
            (d = x ∨ Dependent steps0 x d) → d ∈ acc ++ [s.step_id] := by
          intro d hd hdx
          rcases List.mem_cons.mp hd with rfl | hd2
          · exact List.mem_append_right _ (List.mem_singleton.mpr rfl)
          · exact List.mem_append_left _ (hseen d hd2 hdx)
        rw [ih (s.step_id :: seen) (acc ++ [s.step_id]) hdb2 hsub2
          (List.mem_append_left _ hx) hsound2 hseen2 y]
        rw [List.exists_mem_cons_iff]
        constructor
        · rintro (hy | hr)
          · rcases List.mem_append.mp hy with hy | hy
            · exact Or.inl hy
            · exact Or.inr (Or.inl ⟨(List.mem_singleton.mp hy).symm,
                (List.mem_singleton.mp hy) ▸ hDs⟩)
          · exact Or.inr (Or.inr hr)
        · rintro (hy | ⟨heq, hdy⟩ | hr)
          · exact Or.inl (List.mem_append_left _ hy)
          · exact Or.inl (List.mem_append_right _ (List.mem_singleton.mpr heq.symm))
          · exact Or.inr hr
      · have hnd : ¬ (s.step_id = x ∨ Dependent steps0 x s.step_id) := by
          rintro (heq | hDs)
          · exact hmem (heq ▸ hx)
          · obtain ⟨d, hd, t, ht0, htid, hdin⟩ := dependent_last hDs
            have : t = s := List.inj_on_of_nodup_map hnodup ht0 hsmem htid
            subst this
            have hds : d ∈ seen := hdb1 d hdin
            exact hdep ⟨d, hdin, hseen d hds hd⟩
        rw [show (cleanWalkSim (s :: rest) acc).1 = (cleanWalkSim rest acc).1 from by
          simp only [cleanWalkSim, if_neg hmem, if_neg hdep]]
        have hseen2 : ∀ d ∈ s.step_id :: seen,
            (d = x ∨ Dependent steps0 x d) → d ∈ acc := by
          intro d hd hdx
          rcases List.mem_cons.mp hd with rfl | hd2
          · exact absurd hdx hnd
          · exact hseen d hd2 hdx
        rw [ih (s.step_id :: seen) acc hdb2 hsub2 hx hsound hseen2 y]
        rw [List.exists_mem_cons_iff]
        constructor
        · rintro (hy | hr)
          · exact Or.inl hy
          · exact Or.inr (Or.inr hr)
        · rintro (hy | ⟨heq, hdy⟩ | hr)
          · exact Or.inl hy
          · exact absurd (Or.inr (heq ▸ hdy)) hnd
          · exact Or.inr hr

/-- C5 (amended): a SKIP_DEPENDENTS decision on failed step x adds x and every
step listing x as a direct dependency to the skip-set (regardless of declared
position); from there the walk's cascade skips exactly the declared-later steps
transitively dependent on x, provided every dependency refers to an
earlier-declared step; in the linear scenario S1→S2→S3 with fault on S2, the run
ends with skip-set [S2, S3], S1 completed and status PARTIAL. -/
theorem c5_skip_dependents (cfg : Cfg) (plan : Plan) (x : String)
    (rest : List PlanStep) (seen : List String) (st : St)
    (hmock : cfg.C.execPlan = mock_execute_plan) (haf : 0 < cfg.aFuel)
    (hnodup : (plan.steps.map (fun s => s.step_id)).Nodup)
    (hsub : ∀ s ∈ rest, s ∈ plan.steps)
    (hdb : DepsBefore seen rest)
    (hseen : ∀ d ∈ seen, (d = x ∨ Dependent plan.steps x d) →
      d ∈ addDependents plan x [])
    (hst : st.skipped = addDependents plan x [])
    (h1 : st.aborted = false) (h2 : st.need_replan = false)
    (h3 : st.fail_on_step_id = none) :
    (∀ y, y ∈ addDependents plan x [] ↔ y = x ∨ RevEdge plan.steps x y) ∧
    (∀ (s : PlanStep) (st2 : St) (f j : Nat),
      st2.fail_on_step_id = some s.step_id →
      waitDecision cfg.C cfg.runId (some s.step_id) cfg.dFuel st2.dec_idx =
        some (some "SKIP_DEPENDENTS", j) →
      attemptLoop cfg plan s (f + 1) false st2 =
        some ({ st2 with
          exec_trace := st2.exec_trace ++ [startedEv s, logEv s, failedEv s]
          dec_idx := j
          skipped := addDependents plan s.step_id st2.skipped
          fail_on_step_id := none }, false)) ∧
    (∃ stF, stepLoop cfg plan rest st = some stF ∧
      ∀ y, y ∈ stF.skipped ↔
        y = x ∨ RevEdge plan.steps x y ∨
          ∃ s ∈ rest, s.step_id = y ∧ Dependent plan.steps x y) ∧
    (start_run cfgSkipDep).map
        (fun o => (o.result.status,
          o.result.execution_trace.map (fun e => (e.type, e.step_id)),
          o.finalWalk.map (fun w => w.2.skipped))) =
      some (RunStatus.PARTIAL,
        [(ExecutionEventType.STEP_STARTED, some "S1"),
         (ExecutionEventType.STEP_LOG, some "S1"),
         (ExecutionEventType.STEP_DONE, some "S1"),
         (ExecutionEventType.STEP_STARTED, some "S2"),
         (ExecutionEventType.STEP_LOG, some "S2"),
         (ExecutionEventType.STEP_FAILED, some "S2"),
         (ExecutionEventType.RUN_SUMMARY, none)],
        some ["S2", "S3"]) := by
  refine ⟨fun y => mem_addDependents plan x y, ?_, ?_, by decide⟩
  · intro s st2 f j hfail hwd
    conv_lhs => simp only [attemptLoop]
    rw [hmock]
    simp [hfail, consume_mock_fail, failedEv, hwd]
  · refine ⟨_, stepLoop_clean cfg plan hmock haf rest st h1 h2 h3, ?_⟩
    intro y
    show y ∈ (cleanWalkSim rest st.skipped).1 ↔ _
    rw [hst]
    rw [cleanWalkSim_closure plan.steps x hnodup rest seen (addDependents plan x [])
      hdb hsub ((mem_addDependents plan x x).mpr (Or.inl rfl))
      (fun z hz => ((mem_addDependents plan x z).mp hz).imp_right Dependent.single)
      hseen y]
    rw [mem_addDependents, or_assoc]

/-- C5 counterexample: in the plan [P2⟶P1, X, P1⟶X, C⟶P2] (declared order
inconsistent with dependencies), SKIP_DEPENDENTS on X ends with skip-set
[X, P1] only: C is declared after X and transitively dependent on X through
depends_on edges, yet C executes and completes, so "every later-declared step
reachable from X is skipped" fails without the declared-order assumption. -/
theorem c5_counterexample :
    (start_run cfgWeird).map
        (fun o => (o.result.status,
          o.result.execution_trace.map (fun e => (e.type, e.step_id)),
          o.finalWalk.map (fun w => w.2.skipped))) =
      some (RunStatus.PARTIAL,
        [(ExecutionEventType.STEP_STARTED, some "P2"),
         (ExecutionEventType.STEP_LOG, some "P2"),
         (ExecutionEventType.STEP_DONE, some "P2"),
         (ExecutionEventType.STEP_STARTED, some "X"),
         (ExecutionEventType.STEP_LOG, some "X"),
         (ExecutionEventType.STEP_FAILED, some "X"),
         (ExecutionEventType.STEP_STARTED, some "C"),
         (ExecutionEventType.STEP_LOG, some "C"),
         (ExecutionEventType.STEP_DONE, some "C"),
         (ExecutionEventType.RUN_SUMMARY, none)],
        some ["X", "P1"]) ∧
    Dependent planWeird.steps "X" "C" ∧
    "C" ∉ (["X", "P1"] : List String) := by
  refine ⟨by decide, ?_, by decide⟩
  exact Dependent.tail (Dependent.tail (Dependent.single
      ⟨stepW "P1" ["X"], by decide, rfl, by decide⟩)
      ⟨stepW "P2" ["P1"], by decide, rfl, by decide⟩)
      ⟨stepW "C" ["P2"], by decide, rfl, by decide⟩

/-- Witness for C1 on the abort scenario. -/
theorem c1_witness :
    ∃ out fp stF, start_run cfgAbort = some out ∧ out.finalWalk = some (fp, stF) ∧
      out.result.status =
        (if stF.aborted then RunStatus.CANCELLED
         else if stF.skipped ≠ [] ∨
            ∃ e ∈ stF.exec_trace, e.type = ExecutionEventType.STEP_FAILED then
           RunStatus.PARTIAL
         else RunStatus.SUCCESS) := by
  obtain ⟨out, hout⟩ : ∃ out, start_run cfgAbort = some out := by
    rcases hs : start_run cfgAbort with - | o
    · exact absurd hs (by decide)
    · exact ⟨o, rfl⟩
  have hws : out.finalWalk.isSome = true := by
    have h2 : (start_run cfgAbort).map (fun o => o.finalWalk.isSome) = some true := by
      decide
    rw [hout] at h2
    simpa using h2
  obtain ⟨⟨fp, stF⟩, hfw⟩ := Option.isSome_iff_exists.mp hws
  exact ⟨out, fp, stF, hout, hfw, c1_terminal_status cfgAbort out fp stF hout hfw⟩

/-- Witness for C10 on the plain successful scenario. -/
theorem c10_witness :
    ∃ out, start_run cfgPlain = some out ∧
      (out.result.status = RunStatus.FAILED → out.result.execution_trace = []) ∧
      (out.result.status ≠ RunStatus.FAILED →
        (out.result.execution_trace.filter
          (fun e => e.type == ExecutionEventType.RUN_SUMMARY)).length = 1 ∧
        ∃ e, out.result.execution_trace.getLast? = some e ∧
          e.type = ExecutionEventType.RUN_SUMMARY) := by
  obtain ⟨out, hout⟩ : ∃ out, start_run cfgPlain = some out := by
    rcases hs : start_run cfgPlain with - | o
    · exact absurd hs (by decide)
    · exact ⟨o, rfl⟩
  exact ⟨out, hout, c10_trace_shape cfgPlain out hout⟩

/-- Witness for C6 on the forms-only planner scenario. -/
theorem c6_witness :
    start_run cfgForms = some
      { result :=
        { run_id := cfgForms.runId, status := RunStatus.FAILED
          tool_key := cfgForms.toolKey, intent := cfgForms.intent
          pre_state := cfgForms.C.fetchState 0
          errors := [planningTimeoutError] } } ∧
    planningTimeoutError.code = "PLANNING_TIMEOUT" ∧
    planningTimeoutError.severity = ErrorSeverity.RUN ∧
    planningTimeoutError.retryable = false :=
  c6_planning_timeout cfgForms
    (by intro i hi q h; simp [cfgForms, cfgW, collabW] at h)

/-- Witness for C7 on the invalid-plan scenario. -/
theorem c7_witness :
    start_run cfgBad = some
      { result :=
        { run_id := cfgBad.runId, status := RunStatus.FAILED
          tool_key := cfgBad.toolKey, intent := cfgBad.intent
          pre_state := cfgBad.C.fetchState 0
          errors := [mkError "INVALID_DEPENDENCY" "Dependency Z not found"
            (some "Y") (some "depends_on") none].map valErrToEnvelope } } ∧
    (3 : Nat) ≤ 3 := by
  obtain ⟨h1, h2, -⟩ := c7_correction_bound cfgBad
  refine ⟨?_, ?_⟩
  · exact h2 planBad ⟨4, 0, 0, [], some planBad, [], [], false, false, none⟩
      [mkError "INVALID_DEPENDENCY" "Dependency Z not found"
        (some "Y") (some "depends_on") none]
      3 (by decide) (by decide) (by decide)
  · exact h1 cfgBad.cFuel (planningLoop cfgBad.C 10 {})
      (validate_plan cfgBad.O planBad cfgBad.registry) 0
      ⟨4, 0, 0, [], some planBad, [], [], false, false, none⟩
      [mkError "INVALID_DEPENDENCY" "Dependency Z not found"
        (some "Y") (some "depends_on") none]
      3 (by decide) (by decide)

/-- Witness for C9 on the abort scenario. -/
theorem c9_witness :
    ∃ out fp stF, start_run cfgAbort = some out ∧ out.finalWalk = some (fp, stF) ∧
      stF.aborted = true ∧
      out.result.status = RunStatus.CANCELLED ∧
      out.result.post_state = cfgAbort.C.fetchState 1 ∧
      out.archivePayload.isSome = true := by
  obtain ⟨out, hout⟩ : ∃ out, start_run cfgAbort = some out := by
    rcases hs : start_run cfgAbort with - | o
    · exact absurd hs (by decide)
    · exact ⟨o, rfl⟩
  have hws : out.finalWalk.isSome = true := by
    have h2 : (start_run cfgAbort).map (fun o => o.finalWalk.isSome) = some true := by
      decide
    rw [hout] at h2
    simpa using h2
  obtain ⟨⟨fp, stF⟩, hfw⟩ := Option.isSome_iff_exists.mp hws
  have hab : stF.aborted = true := by
    have h3 : (start_run cfgAbort).map
        (fun o => o.finalWalk.map (fun w => w.2.aborted)) = some (some true) := by
      decide
    rw [hout] at h3
    simp only [Option.map_some', Option.some.injEq] at h3
    rw [hfw] at h3
    simpa using h3
  obtain ⟨hs1, hs2, hs3⟩ := (c9_abort_effects cfgAbort).1 out fp stF hout hfw hab
  exact ⟨out, fp, stF, hout, hfw, hab, hs1, hs2, hs3⟩

/-- Witness for C3 on the mixed decision queue. -/
theorem c3_witness :
    0 < 2 ∧
    (∀ k, 0 ≤ k → k + 1 < 2 →
      ∃ r s dd, collab3.decision k = DecisionResponse.dict r s dd ∧
        ¬(r = some "R" ∧ s = some "S1")) ∧
    (match collab3.decision (2 - 1) with
     | DecisionResponse.dict r s dd =>
        r = some "R" ∧ s = some "S1" ∧ dd = some "RETRY_STEP"
     | DecisionResponse.raw dd => some "RETRY_STEP" = some dd) :=
  c3_decision_wait collab3 "R" (some "S1") 5 0 (some "RETRY_STEP") 2 (by decide)

/-- Witness for C4 on the concrete cyclic plan. -/
theorem c4_witness :
    ∃ n, cycleScan (planAdj planCyc.steps) = some n ∧
      cycleErrors (validate_plan OW planCyc regW) =
        [mkError "INVALID_DEPENDENCY" cycleMsg (some n) (some "depends_on") none] :=
  (c4_cycle_rule OW planCyc regW).1
    ⟨"B", ReachPlus.head (b := "C") (by decide) (ReachPlus.single (by decide))⟩

/-- Witness for C8 on the replan scenario. -/
theorem c8_witness :
    outerLoop cfgReplan (4 + 1) planLin
      ⟨1, 0, 0, [], some planLin, [], [], false, false, some "S2"⟩ =
    outerLoop cfgReplan 4 planNew
      { planningLoop cfgReplan.C 10
          ⟨1, 0, 1,
            ["Step S2 failed: Mock failure for testing. Please provide a new plan."],
            none, [],
            [startedEv (stepW "S1" []), logEv (stepW "S1" []), doneEv (stepW "S1" []),
             startedEv (stepW "S2" ["S1"]), logEv (stepW "S2" ["S1"]),
             failedEv (stepW "S2" ["S1"])],
            false, true, some "S2"⟩ with
        skipped := [], exec_trace := [] } :=
  (c8_replan_discards cfgReplan 4 planLin planNew 1 0 0 [] (some planLin) [] []
    false false (some "S2")
    ⟨1, 0, 1,
      ["Step S2 failed: Mock failure for testing. Please provide a new plan."],
      none, [],
      [startedEv (stepW "S1" []), logEv (stepW "S1" []), doneEv (stepW "S1" []),
       startedEv (stepW "S2" ["S1"]), logEv (stepW "S2" ["S1"]),
       failedEv (stepW "S2" ["S1"])],
      false, true, some "S2"⟩
    (by decide) (by decide) (by decide) (by decide) (by decide)).1

/-- Witness for C2 on the retry scenario. -/
theorem c2_witness :
    ∃ out, start_run cfgRetry = some out ∧
      out.result.status = RunStatus.PARTIAL ∧
      out.result.execution_trace =
        ([startedEv (stepW "S1" []), logEv (stepW "S1" []), failedEv (stepW "S1" []),
          startedEv (stepW "S1" []), logEv (stepW "S1" []), doneEv (stepW "S1" [])] ++
          (cleanWalkSim [] []).2) ++
        [{ type := ExecutionEventType.RUN_SUMMARY
           message := some ("Run completed with status " ++ statusStr RunStatus.PARTIAL)
           output := some (EventOutput.summary RunStatus.PARTIAL []
             planOne.steps.length) }] :=
  c2_retry cfgRetry planOne (stepW "S1" []) [] 1 rfl (by decide) (by decide) rfl
    (by decide) (by decide) (by decide) (by decide)

/-- Witness for C5 on the linear skip-dependents scenario. -/
theorem c5_witness :
    ∃ stF, stepLoop cfgSkipDep planLin [stepW "S3" ["S2"]]
        ⟨0, 0, 0, [], none, addDependents planLin "S2" [], [], false, false, none⟩ =
        some stF ∧
      ("S3" ∈ stF.skipped ↔ "S3" = "S2" ∨ RevEdge planLin.steps "S2" "S3" ∨
        ∃ s ∈ [stepW "S3" ["S2"]], s.step_id = "S3" ∧
          Dependent planLin.steps "S2" "S3") := by
  obtain ⟨-, -, ⟨stF, hs, hiff⟩, -⟩ :=
    c5_skip_dependents cfgSkipDep planLin "S2" [stepW "S3" ["S2"]] ["S2"]
      ⟨0, 0, 0, [], none, addDependents planLin "S2" [], [], false, false, none⟩
      rfl (by decide) (by decide) (by decide) ⟨by decide, trivial⟩
      (by
        intro d hd h
        have hd2 := List.mem_singleton.mp hd
        subst hd2
        decide)
      rfl rfl rfl rfl
  exact ⟨stF, hs, hiff "S3"⟩

end Vimani
